import Mathlib

/-!
Shallow embedding of the indigitall-bi ingestion + transform pipeline
(`scripts/transform_bridge.py` and `scripts/extractors/*.py`) together with
proofs of the behavioural properties stated in the specification.

Machine integers are modelled as `Int`, SQL `date`/timestamps as `Int` day or
tick numbers, nullable SQL columns as `Option _`, and `numeric` ratio columns
as `Rat`.  SQL tables are lists of typed rows; `INSERT ... ON CONFLICT DO
UPDATE` is the `upsertRow` function below, and the window-function dedup
(`row_number() OVER (PARTITION BY ... ORDER BY ...) = 1`) is `dedupByKey`.
-/

set_option autoImplicit false

namespace Bridge

/-! ## Generic upsert-table machinery

`upsertRow` is the semantics of `INSERT ... VALUES ... ON CONFLICT (key) DO
UPDATE SET ...`: if some existing row has the conflict key of the incoming
values, every such row is updated by the merge function `mrg`; otherwise the
freshly built row `mk n` is appended. -/

section UpsertTable

variable {Row New κ : Type} [DecidableEq κ]

/-- Does some row of `t` carry key `k`? -/
def hasKey (key : Row → κ) (t : List Row) (k : κ) : Bool :=
  t.any (fun r => key r = k)

/-- One `INSERT ... ON CONFLICT (key) DO UPDATE` statement. -/
def upsertRow (key : Row → κ) (keyN : New → κ) (mk : New → Row)
    (mrg : Row → New → Row) (t : List Row) (n : New) : List Row :=
  if hasKey key t (keyN n) then
    t.map (fun r => if key r = keyN n then mrg r n else r)
  else
    t ++ [mk n]

/-- A transform loop: upsert every deduplicated row in order. -/
def upsertAll (key : Row → κ) (keyN : New → κ) (mk : New → Row)
    (mrg : Row → New → Row) (t : List Row) (rows : List New) : List Row :=
  rows.foldl (upsertRow key keyN mk mrg) t

/-- The net effect of a batch of upserts on one pre-existing row. -/
def updateBy (key : Row → κ) (keyN : New → κ) (mrg : Row → New → Row)
    (rows : List New) (r : Row) : Row :=
  match rows.find? (fun n => keyN n = key r) with
  | some n => mrg r n
  | none => r

/-- First row of `t` carrying key `k`, i.e. the result of a key lookup. -/
def lookupRow (key : Row → κ) (t : List Row) (k : κ) : Option Row :=
  t.find? (fun r => key r = k)

theorem hasKey_iff {key : Row → κ} {t : List Row} {k : κ} :
    hasKey key t k = true ↔ ∃ r ∈ t, key r = k := by
  simp [hasKey]

theorem hasKey_append {key : Row → κ} {t₁ t₂ : List Row} {k : κ} :
    hasKey key (t₁ ++ t₂) k = (hasKey key t₁ k || hasKey key t₂ k) := by
  simp [hasKey, List.any_append]

theorem updateBy_nil {key : Row → κ} {keyN : New → κ} {mrg : Row → New → Row}
    (r : Row) : updateBy key keyN mrg [] r = r := rfl

end UpsertTable

section UpsertLaws

variable {Row New κ : Type} [DecidableEq κ]
variable {key : Row → κ} {keyN : New → κ} {mk : New → Row} {mrg : Row → New → Row}

theorem key_updateBy (hkey : ∀ r n, key (mrg r n) = key r) (rows : List New) (v : Row) :
    key (updateBy key keyN mrg rows v) = key v := by
  unfold updateBy
  cases rows.find? (fun n => keyN n = key v) with
  | none => rfl
  | some n => exact hkey v n

theorem find?_key_of_nodup {rows : List New} (hnd : (rows.map keyN).Nodup)
    {n : New} (hn : n ∈ rows) :
    rows.find? (fun m => keyN m = keyN n) = some n := by
  induction rows with
  | nil => cases hn
  | cons m ms ih =>
    rw [List.map_cons, List.nodup_cons] at hnd
    by_cases hm : keyN m = keyN n
    · have hnm : n = m := by
        rcases List.mem_cons.mp hn with h | h
        · exact h
        · exact absurd (hm ▸ List.mem_map_of_mem keyN h) hnd.1
      rw [List.find?_cons_of_pos _ (by simpa using hm), hnm]
    · have hn' : n ∈ ms := by
        rcases List.mem_cons.mp hn with h | h
        · exact absurd (congrArg keyN h.symm) hm
        · exact h
      rw [List.find?_cons_of_neg _ (by simpa using hm)]
      exact ih hnd.2 hn'

theorem updateBy_updateBy (hkey : ∀ r n, key (mrg r n) = key r)
    (hmm : ∀ v n, mrg (mrg v n) n = mrg v n) (rows : List New) (v : Row) :
    updateBy key keyN mrg rows (updateBy key keyN mrg rows v)
      = updateBy key keyN mrg rows v := by
  unfold updateBy
  cases hfind : rows.find? (fun n => keyN n = key v) with
  | none => simp [hfind]
  | some n =>
    have : key (mrg v n) = key v := hkey v n
    rw [this, hfind]
    exact hmm v n

theorem updateBy_mk (hmk : ∀ n, key (mk n) = keyN n) (hmkm : ∀ n, mrg (mk n) n = mk n)
    {rows : List New} (hnd : (rows.map keyN).Nodup) {n : New} (hn : n ∈ rows) :
    updateBy key keyN mrg rows (mk n) = mk n := by
  unfold updateBy
  rw [hmk, find?_key_of_nodup hnd hn]
  exact hmkm n

theorem hasKey_map_update (hkey : ∀ r n, key (mrg r n) = key r)
    (t : List Row) (n : New) (k : κ) :
    hasKey key (t.map (fun r => if key r = keyN n then mrg r n else r)) k
      = hasKey key t k := by
  unfold hasKey
  rw [List.any_map]
  have hfun : ((fun r => decide (key r = k)) ∘ fun r => if key r = keyN n then mrg r n else r)
      = fun r => decide (key r = k) := by
    funext r
    by_cases hr : key r = keyN n <;> simp [hr, hkey]
  rw [hfun]

/-- Closed form of a batch of upserts: every pre-existing row is updated by
the (unique) incoming row with its key, and incoming rows with fresh keys are
appended in order. -/
theorem upsertAll_eq_char (hkey : ∀ r n, key (mrg r n) = key r)
    (hmk : ∀ n, key (mk n) = keyN n)
    {rows : List New} (hnd : (rows.map keyN).Nodup) (t : List Row) :
    upsertAll key keyN mk mrg t rows =
      t.map (updateBy key keyN mrg rows) ++
      (rows.filter (fun n => !hasKey key t (keyN n))).map mk := by
  induction rows generalizing t with
  | nil =>
    have hid : t.map (updateBy key keyN mrg []) = t := by
      rw [List.map_congr_left (fun r _ =>
        @updateBy_nil Row New _ _ key keyN mrg r)]
      exact List.map_id t
    simp [upsertAll, hid]
  | cons r rs ih =>
    rw [List.map_cons, List.nodup_cons] at hnd
    have hr : keyN r ∉ rs.map keyN := hnd.1
    have hstep : upsertAll key keyN mk mrg t (r :: rs)
        = upsertAll key keyN mk mrg (upsertRow key keyN mk mrg t r) rs := rfl
    rw [hstep, ih hnd.2]
    by_cases hpos : hasKey key t (keyN r) = true
    · rw [upsertRow, if_pos hpos]
      have hmapeq : (t.map (fun v => if key v = keyN r then mrg v r else v)).map
            (updateBy key keyN mrg rs)
          = t.map (updateBy key keyN mrg (r :: rs)) := by
        rw [List.map_map]
        apply List.map_congr_left
        intro v _
        simp only [Function.comp_apply]
        by_cases hv : key v = keyN r
        · have h1 : updateBy key keyN mrg rs (mrg v r) = mrg v r := by
            unfold updateBy
            rw [hkey v r, hv]
            rw [List.find?_eq_none.mpr]
            intro m hm
            simp only [decide_eq_true_eq]
            intro hcon
            exact hr (hcon ▸ List.mem_map_of_mem keyN hm)
          have h2 : updateBy key keyN mrg (r :: rs) v = mrg v r := by
            unfold updateBy
            rw [List.find?_cons_of_pos _ (by simpa using hv.symm)]
          simp only [if_pos hv, h1, h2]
        · have h2 : updateBy key keyN mrg (r :: rs) v = updateBy key keyN mrg rs v := by
            unfold updateBy
            rw [List.find?_cons_of_neg _ (by simpa using fun h => hv h.symm)]
          simp only [if_neg hv, h2]
      have hfilt : rs.filter
            (fun n => !hasKey key (t.map (fun v => if key v = keyN r then mrg v r else v))
              (keyN n))
          = rs.filter (fun n => !hasKey key t (keyN n)) := by
        apply List.filter_congr
        intro n _
        rw [hasKey_map_update hkey]
      have htgt : (r :: rs).filter (fun n => !hasKey key t (keyN n))
          = rs.filter (fun n => !hasKey key t (keyN n)) := by
        simp [List.filter_cons, hpos]
      rw [hmapeq, hfilt, htgt]
    · rw [upsertRow, if_neg hpos]
      have hnotk : ∀ v ∈ t, key v ≠ keyN r := by
        intro v hv hcon
        exact hpos (hasKey_iff.mpr ⟨v, hv, hcon⟩)
      have hmapeq : (t ++ [mk r]).map (updateBy key keyN mrg rs)
          = t.map (updateBy key keyN mrg (r :: rs)) ++ [mk r] := by
        rw [List.map_append, List.map_singleton]
        have h1 : updateBy key keyN mrg rs (mk r) = mk r := by
          unfold updateBy
          rw [hmk]
          rw [List.find?_eq_none.mpr]
          intro m hm
          simp only [decide_eq_true_eq]
          intro hcon
          exact hr (hcon ▸ List.mem_map_of_mem keyN hm)
        rw [h1]
        congr 1
        apply List.map_congr_left
        intro v hv
        unfold updateBy
        rw [List.find?_cons_of_neg _ (by simpa using fun h => hnotk v hv h.symm)]
      have hfilt : rs.filter (fun n => !hasKey key (t ++ [mk r]) (keyN n))
          = rs.filter (fun n => !hasKey key t (keyN n)) := by
        apply List.filter_congr
        intro n hn
        rw [hasKey_append]
        have : hasKey key [mk r] (keyN n) = false := by
          simp only [hasKey, List.any_cons, List.any_nil, Bool.or_false, hmk]
          rw [decide_eq_false_iff_not]
          intro hcon
          exact hr (by rw [hcon]; exact List.mem_map_of_mem keyN hn)
        rw [this, Bool.or_false]
      have hfalse : hasKey key t (keyN r) = false := by
        cases h : hasKey key t (keyN r)
        · rfl
        · exact absurd h hpos
      have htgt : (r :: rs).filter (fun n => !hasKey key t (keyN n))
          = r :: rs.filter (fun n => !hasKey key t (keyN n)) := by
        simp [List.filter_cons, hfalse]
      rw [hmapeq, hfilt, htgt, List.map_cons, List.append_assoc, List.singleton_append]

theorem upsertAll_covers (hkey : ∀ r n, key (mrg r n) = key r)
    (hmk : ∀ n, key (mk n) = keyN n)
    {rows : List New} (hnd : (rows.map keyN).Nodup) (t : List Row)
    {n : New} (hn : n ∈ rows) :
    hasKey key (upsertAll key keyN mk mrg t rows) (keyN n) = true := by
  rw [upsertAll_eq_char hkey hmk hnd t, hasKey_append]
  cases hpos : hasKey key t (keyN n) with
  | true =>
    obtain ⟨r, hrmem, hkr⟩ := hasKey_iff.mp hpos
    have h1 : hasKey key (t.map (updateBy key keyN mrg rows)) (keyN n) = true :=
      hasKey_iff.mpr ⟨updateBy key keyN mrg rows r, List.mem_map_of_mem _ hrmem,
        by rw [key_updateBy hkey, hkr]⟩
    simp [h1]
  | false =>
    have hmem : n ∈ rows.filter (fun m => !hasKey key t (keyN m)) :=
      List.mem_filter.mpr ⟨hn, by simp [hpos]⟩
    have h2 : hasKey key ((rows.filter (fun m => !hasKey key t (keyN m))).map mk)
        (keyN n) = true :=
      hasKey_iff.mpr ⟨mk n, List.mem_map_of_mem _ hmem, hmk n⟩
    simp [h2]

/-- Running the same batch of upserts twice leaves the table exactly as after
the first run, provided the batch has pairwise-distinct keys and the
per-entity merge rule is absorbing (`mrg (mrg v n) n = mrg v n`,
`mrg (mk n) n = mk n`). -/
theorem upsertAll_idem (hkey : ∀ r n, key (mrg r n) = key r)
    (hmk : ∀ n, key (mk n) = keyN n)
    {rows : List New} (hnd : (rows.map keyN).Nodup)
    (hmm : ∀ v n, mrg (mrg v n) n = mrg v n)
    (hmkm : ∀ n, mrg (mk n) n = mk n) (t : List Row) :
    upsertAll key keyN mk mrg (upsertAll key keyN mk mrg t rows) rows
      = upsertAll key keyN mk mrg t rows := by
  conv_lhs => rw [upsertAll_eq_char hkey hmk hnd]
  have hfilt : rows.filter
      (fun n => !hasKey key (upsertAll key keyN mk mrg t rows) (keyN n)) = [] := by
    rw [List.filter_eq_nil_iff]
    intro n hn
    simp [upsertAll_covers hkey hmk hnd t hn]
  rw [hfilt, List.map_nil, List.append_nil]
  rw [upsertAll_eq_char hkey hmk hnd t, List.map_append, List.map_map, List.map_map]
  congr 1
  · apply List.map_congr_left
    intro v _
    exact updateBy_updateBy hkey hmm rows v
  · apply List.map_congr_left
    intro n hnf
    have hn : n ∈ rows := (List.mem_filter.mp hnf).1
    exact updateBy_mk hmk hmkm hnd hn

end UpsertLaws

/-! ## Window-function dedup

`row_number() OVER (PARTITION BY key ORDER BY rank DESC) = 1` keeps, for each
partition key, the row with the greatest rank.  Ranks are encoded as integer
triples compared lexicographically, which is enough for every `ORDER BY`
clause in `transform_bridge.py`. -/

section Dedup

variable {α κ : Type} [DecidableEq κ]

/-- Strict lexicographic order on integer triples. -/
def lex3Lt (p q : Int × Int × Int) : Bool :=
  decide (p.1 < q.1 ∨ (p.1 = q.1 ∧ (p.2.1 < q.2.1 ∨ (p.2.1 = q.2.1 ∧ p.2.2 < q.2.2))))

/-- `beatsR rank a b`: row `a` strictly precedes row `b` under
`ORDER BY rank DESC` (bigger rank wins). -/
def beatsR (rank : α → Int × Int × Int) (a b : α) : Bool :=
  lex3Lt (rank b) (rank a)

theorem lex3Lt_irrefl (p : Int × Int × Int) : lex3Lt p p = false := by
  simp [lex3Lt]

theorem lex3Lt_trans {p q r : Int × Int × Int} (h1 : lex3Lt p q = true)
    (h2 : lex3Lt q r = true) : lex3Lt p r = true := by
  simp only [lex3Lt, decide_eq_true_eq] at *
  omega

theorem lex3Lt_not_trans {p q r : Int × Int × Int} (h1 : lex3Lt p q = false)
    (h2 : lex3Lt q r = false) : lex3Lt p r = false := by
  simp only [lex3Lt, decide_eq_false_iff_not] at *
  omega

/-- Fold computing the top-ranked row of a nonempty partition (the first row
encountered wins ties, matching a deterministic reading of `row_number`). -/
def bestRow (beats : α → α → Bool) : α → List α → α
  | a, [] => a
  | a, b :: l => bestRow beats (if beats b a then b else a) l

theorem bestRow_mem (beats : α → α → Bool) (a : α) (l : List α) :
    bestRow beats a l ∈ a :: l := by
  induction l generalizing a with
  | nil => simp [bestRow]
  | cons b l ih =>
    have hstep : bestRow beats a (b :: l) = bestRow beats (if beats b a then b else a) l := rfl
    rw [hstep]
    by_cases hb : beats b a = true
    · rw [if_pos hb]
      rcases List.mem_cons.mp (ih b) with h | h
      · rw [h]
        exact List.mem_cons.mpr (Or.inr (List.mem_cons_self b l))
      · exact List.mem_cons.mpr (Or.inr (List.mem_cons.mpr (Or.inr h)))
    · rw [if_neg hb]
      rcases List.mem_cons.mp (ih a) with h | h
      · rw [h]
        exact List.mem_cons_self a (b :: l)
      · exact List.mem_cons.mpr (Or.inr (List.mem_cons.mpr (Or.inr h)))

theorem bestRow_not_beaten (rank : α → Int × Int × Int) (a : α) (l : List α) :
    ∀ x ∈ a :: l, beatsR rank x (bestRow (beatsR rank) a l) = false := by
  induction l generalizing a with
  | nil =>
    intro x hx
    rcases List.mem_cons.mp hx with h | h
    · subst h
      exact lex3Lt_irrefl _
    · cases h
  | cons b l ih =>
    intro x hx
    have hstep : bestRow (beatsR rank) a (b :: l)
        = bestRow (beatsR rank) (if beatsR rank b a then b else a) l := rfl
    rw [hstep]
    by_cases hb : beatsR rank b a = true
    · rw [if_pos hb]
      rcases List.mem_cons.mp hx with h | h
      · rw [h]
        have hbm := ih b b (List.mem_cons_self b l)
        simp only [beatsR] at hbm hb ⊢
        cases hxm : lex3Lt (rank (bestRow (beatsR rank) b l)) (rank a) with
        | false => rfl
        | true => exact absurd (lex3Lt_trans hxm hb) (by simp [hbm])
      · exact ih b x h
    · rw [if_neg hb]
      rcases List.mem_cons.mp hx with h | h
      · rw [h]
        exact ih a a (List.mem_cons_self a l)
      · rcases List.mem_cons.mp h with h' | h'
        · rw [h']
          have ham := ih a a (List.mem_cons_self a l)
          simp only [beatsR] at ham hb ⊢
          have hbf : lex3Lt (rank a) (rank b) = false := by
            cases hxa : lex3Lt (rank a) (rank b) with
            | false => rfl
            | true => exact absurd hxa (by simpa using hb)
          exact lex3Lt_not_trans ham hbf
        · exact ih a x (List.mem_cons.mpr (Or.inr h'))

/-- The surviving row of one partition (`none` when the partition is empty). -/
def pickForKey (key : α → κ) (beats : α → α → Bool) (rows : List α) (k : κ) :
    Option α :=
  match rows.filter (fun r => key r = k) with
  | [] => none
  | a :: l => some (bestRow beats a l)

/-- `SELECT ... FROM deduplicated WHERE _rn = 1`: one surviving row per
partition key, keys in first-appearance order. -/
def dedupByKey (key : α → κ) (beats : α → α → Bool) (rows : List α) : List α :=
  ((rows.map key).dedup).filterMap (pickForKey key beats rows)

theorem pickForKey_mem_filter {key : α → κ} {beats : α → α → Bool}
    {rows : List α} {k : κ} {r : α} (h : pickForKey key beats rows k = some r) :
    r ∈ rows.filter (fun x => key x = k) := by
  unfold pickForKey at h
  cases hf : rows.filter (fun x => key x = k) with
  | nil => rw [hf] at h; cases h
  | cons a l =>
    rw [hf] at h
    have h' : bestRow beats a l = r := by
      have hsome : some (bestRow beats a l) = some r := h
      exact Option.some_inj.mp hsome
    rw [← h']
    exact bestRow_mem beats a l

theorem pickForKey_mem {key : α → κ} {beats : α → α → Bool}
    {rows : List α} {k : κ} {r : α} (h : pickForKey key beats rows k = some r) :
    r ∈ rows :=
  (List.mem_filter.mp (pickForKey_mem_filter h)).1

theorem pickForKey_key {key : α → κ} {beats : α → α → Bool}
    {rows : List α} {k : κ} {r : α} (h : pickForKey key beats rows k = some r) :
    key r = k := by
  have := (List.mem_filter.mp (pickForKey_mem_filter h)).2
  simpa using this

theorem pickForKey_isSome {key : α → κ} {beats : α → α → Bool}
    {rows : List α} {k : κ} (h : k ∈ rows.map key) :
    ∃ r, pickForKey key beats rows k = some r := by
  obtain ⟨x, hx, hkx⟩ := List.mem_map.mp h
  have hmem : x ∈ rows.filter (fun r => key r = k) :=
    List.mem_filter.mpr ⟨hx, by simp [hkx]⟩
  unfold pickForKey
  cases hf : rows.filter (fun r => key r = k) with
  | nil => rw [hf] at hmem; cases hmem
  | cons a l =>
    exact ⟨bestRow beats a l, rfl⟩

theorem dedupByKey_map_key (key : α → κ) (beats : α → α → Bool) (rows : List α) :
    (dedupByKey key beats rows).map key = (rows.map key).dedup := by
  unfold dedupByKey
  have hgen : ∀ ks : List κ, (∀ k ∈ ks, k ∈ rows.map key) →
      (ks.filterMap (pickForKey key beats rows)).map key = ks := by
    intro ks
    induction ks with
    | nil => intro _; rfl
    | cons k ks ih =>
      intro hmem
      obtain ⟨r, hr⟩ := @pickForKey_isSome _ _ _ key beats rows k
        (hmem k (List.mem_cons_self k ks))
      rw [List.filterMap_cons, hr, List.map_cons, pickForKey_key hr,
        ih (fun k' hk' => hmem k' (List.mem_cons.mpr (Or.inr hk')))]
  exact hgen _ (fun k hk => List.mem_dedup.mp hk)

theorem dedupByKey_nodup_keys (key : α → κ) (beats : α → α → Bool) (rows : List α) :
    ((dedupByKey key beats rows).map key).Nodup := by
  rw [dedupByKey_map_key]
  exact List.nodup_dedup _

theorem dedupByKey_subset {key : α → κ} {beats : α → α → Bool} {rows : List α}
    {r : α} (h : r ∈ dedupByKey key beats rows) : r ∈ rows := by
  obtain ⟨k, _, hpick⟩ := List.mem_filterMap.mp h
  exact pickForKey_mem hpick

/-- Every survivor of the dedup is top-ranked in its partition: no row of the
input with the same key strictly precedes it in the `ORDER BY rank DESC`. -/
theorem dedupByKey_top {key : α → κ} {rank : α → Int × Int × Int} {rows : List α}
    {r : α} (h : r ∈ dedupByKey key (beatsR rank) rows) :
    ∀ x ∈ rows, key x = key r → beatsR rank x r = false := by
  intro x hx hkx
  obtain ⟨k, _, hpick⟩ := List.mem_filterMap.mp h
  have hkr : key r = k := pickForKey_key hpick
  have hxf : x ∈ rows.filter (fun y => key y = k) :=
    List.mem_filter.mpr ⟨hx, by simp [hkx, hkr]⟩
  unfold pickForKey at hpick
  cases hf : rows.filter (fun y => key y = k) with
  | nil => rw [hf] at hxf; cases hxf
  | cons a l =>
    rw [hf] at hpick hxf
    have h' : bestRow (beatsR rank) a l = r := by
      have hsome : some (bestRow (beatsR rank) a l) = some r := hpick
      exact Option.some_inj.mp hsome
    rw [← h']
    exact bestRow_not_beaten rank a l x hxf

end Dedup

section LookupLaws

variable {Row New κ : Type} [DecidableEq κ]
variable {key : Row → κ} {keyN : New → κ} {mk : New → Row} {mrg : Row → New → Row}

theorem lookupRow_map_update (hkey : ∀ r n, key (mrg r n) = key r) (t : List Row)
    (n : New) :
    lookupRow key (t.map (fun r => if key r = keyN n then mrg r n else r)) (keyN n)
      = Option.map (fun r => mrg r n) (lookupRow key t (keyN n)) := by
  induction t with
  | nil => rfl
  | cons r t ih =>
    unfold lookupRow at *
    by_cases hr : key r = keyN n
    · rw [List.map_cons, if_pos hr, List.find?_cons_of_pos _ (by simp [hkey, hr]),
        List.find?_cons_of_pos _ (by simp [hr])]
      rfl
    · rw [List.map_cons, if_neg hr, List.find?_cons_of_neg _ (by simp [hr]),
        List.find?_cons_of_neg _ (by simp [hr])]
      exact ih

theorem lookupRow_map_update_other (hkey : ∀ r n, key (mrg r n) = key r) (t : List Row)
    (n : New) {k : κ} (hne : k ≠ keyN n) :
    lookupRow key (t.map (fun r => if key r = keyN n then mrg r n else r)) k
      = lookupRow key t k := by
  induction t with
  | nil => rfl
  | cons r t ih =>
    unfold lookupRow at *
    by_cases hr : key r = k
    · have hrn : ¬ key r = keyN n := fun h => hne (hr ▸ h)
      rw [List.map_cons, if_neg hrn, List.find?_cons_of_pos _ (by simp [hr]),
        List.find?_cons_of_pos _ (by simp [hr])]
    · by_cases hrn : key r = keyN n
      · rw [List.map_cons, if_pos hrn, List.find?_cons_of_neg _ (by simp [hkey, hr]),
          List.find?_cons_of_neg _ (by simp [hr])]
        exact ih
      · rw [List.map_cons, if_neg hrn, List.find?_cons_of_neg _ (by simp [hr]),
          List.find?_cons_of_neg _ (by simp [hr])]
        exact ih

theorem lookupRow_append_of_none {t₁ t₂ : List Row} {k : κ}
    (h : lookupRow key t₁ k = none) :
    lookupRow key (t₁ ++ t₂) k = lookupRow key t₂ k := by
  induction t₁ with
  | nil => rfl
  | cons r t ih =>
    unfold lookupRow at *
    by_cases hr : key r = k
    · rw [List.find?_cons_of_pos _ (by simp [hr])] at h
      cases h
    · rw [List.find?_cons_of_neg _ (by simp [hr])] at h
      rw [List.cons_append, List.find?_cons_of_neg _ (by simp [hr])]
      exact ih h

theorem lookupRow_eq_none_of_not_hasKey {t : List Row} {k : κ}
    (h : hasKey key t k = false) : lookupRow key t k = none := by
  unfold lookupRow
  rw [List.find?_eq_none]
  intro r hr
  simp only [decide_eq_true_eq]
  intro hcon
  have htrue : hasKey key t k = true := hasKey_iff.mpr ⟨r, hr, hcon⟩
  rw [h] at htrue
  cases htrue

/-- Lookup at the conflict key after one upsert: the merged row when the key
was present, the freshly inserted row when it was not. -/
theorem lookupRow_upsertRow_same (hkey : ∀ r n, key (mrg r n) = key r)
    (hmk : ∀ n, key (mk n) = keyN n) (t : List Row) (n : New) :
    lookupRow key (upsertRow key keyN mk mrg t n) (keyN n)
      = match lookupRow key t (keyN n) with
        | some r => some (mrg r n)
        | none => some (mk n) := by
  unfold upsertRow
  by_cases hpos : hasKey key t (keyN n) = true
  · rw [if_pos hpos, lookupRow_map_update hkey]
    obtain ⟨r, hr, hkr⟩ := hasKey_iff.mp hpos
    cases hlook : lookupRow key t (keyN n) with
    | some v => rfl
    | none =>
      exfalso
      unfold lookupRow at hlook
      rw [List.find?_eq_none] at hlook
      exact absurd (by simpa using hkr) (hlook r hr)
  · rw [if_neg hpos]
    have hnone : lookupRow key t (keyN n) = none := by
      apply lookupRow_eq_none_of_not_hasKey
      cases h : hasKey key t (keyN n)
      · rfl
      · exact absurd h hpos
    rw [lookupRow_append_of_none hnone, hnone]
    unfold lookupRow
    rw [List.find?_cons_of_pos _ (by simp [hmk])]

/-- Lookup at any other key is unchanged by an upsert. -/
theorem lookupRow_upsertRow_other (hkey : ∀ r n, key (mrg r n) = key r)
    (hmk : ∀ n, key (mk n) = keyN n) (t : List Row) (n : New) {k : κ}
    (hne : k ≠ keyN n) :
    lookupRow key (upsertRow key keyN mk mrg t n) k = lookupRow key t k := by
  unfold upsertRow
  by_cases hpos : hasKey key t (keyN n) = true
  · rw [if_pos hpos, lookupRow_map_update_other hkey t n hne]
  · rw [if_neg hpos]
    induction t with
    | nil =>
      unfold lookupRow
      rw [List.nil_append,
        List.find?_cons_of_neg _ (by simp only [hmk, decide_eq_true_eq]; exact fun h => hne h.symm),
        List.find?_nil]
    | cons r t ih =>
      unfold lookupRow at *
      by_cases hr : key r = k
      · rw [List.cons_append, List.find?_cons_of_pos _ (by simp [hr]),
          List.find?_cons_of_pos _ (by simp [hr])]
      · rw [List.cons_append, List.find?_cons_of_neg _ (by simp [hr]),
          List.find?_cons_of_neg _ (by simp [hr])]
        exact ih (by
          cases h : hasKey key t (keyN n)
          · simp
          · exact absurd (hasKey_iff.mpr (by
              obtain ⟨v, hv, hkv⟩ := hasKey_iff.mp h
              exact ⟨v, List.mem_cons.mpr (Or.inr hv), hkv⟩)) hpos)

/-- Lookup at a key not touched by any row of the batch is unchanged. -/
theorem lookupRow_upsertAll_other (hkey : ∀ r n, key (mrg r n) = key r)
    (hmk : ∀ n, key (mk n) = keyN n) (t : List Row) {rows : List New} {k : κ}
    (hne : ∀ n ∈ rows, keyN n ≠ k) :
    lookupRow key (upsertAll key keyN mk mrg t rows) k = lookupRow key t k := by
  induction rows generalizing t with
  | nil => rfl
  | cons n rows ih =>
    have hstep : upsertAll key keyN mk mrg t (n :: rows)
        = upsertAll key keyN mk mrg (upsertRow key keyN mk mrg t n) rows := rfl
    rw [hstep, ih _ (fun m hm => hne m (List.mem_cons.mpr (Or.inr hm))),
      lookupRow_upsertRow_other hkey hmk t n
        (fun h => hne n (List.mem_cons_self n rows) h.symm)]

/-- Keys are unchanged when the upsert hits an existing key. -/
theorem keys_upsertRow_of_hasKey (hkey : ∀ r n, key (mrg r n) = key r)
    {t : List Row} {n : New} (hpos : hasKey key t (keyN n) = true) :
    (upsertRow key keyN mk mrg t n).map key = t.map key := by
  unfold upsertRow
  rw [if_pos hpos, List.map_map]
  apply List.map_congr_left
  intro r _
  simp only [Function.comp_apply]
  by_cases hr : key r = keyN n
  · rw [if_pos hr, hkey]
  · rw [if_neg hr]

/-- An upsert on a fresh key appends exactly one row. -/
theorem upsertRow_of_not_hasKey {t : List Row} {n : New}
    (hneg : hasKey key t (keyN n) = false) :
    upsertRow key keyN mk mrg t n = t ++ [mk n] := by
  unfold upsertRow
  rw [if_neg (by simp [hneg])]

/-- Upserts preserve key uniqueness: at most one row per key, always. -/
theorem nodup_keys_upsertRow (hkey : ∀ r n, key (mrg r n) = key r)
    (hmk : ∀ n, key (mk n) = keyN n) {t : List Row} (n : New)
    (hnd : (t.map key).Nodup) :
    ((upsertRow key keyN mk mrg t n).map key).Nodup := by
  cases hpos : hasKey key t (keyN n) with
  | true => rw [keys_upsertRow_of_hasKey hkey hpos]; exact hnd
  | false =>
    rw [upsertRow_of_not_hasKey hpos, List.map_append, List.map_singleton]
    rw [List.nodup_append]
    refine ⟨hnd, List.nodup_singleton _, ?_⟩
    intro x hx hx1
    have hxk : x = keyN n := by
      rw [hmk] at hx1
      simpa using hx1
    obtain ⟨r, hr, hkr⟩ := List.mem_map.mp hx
    exact absurd (hasKey_iff.mpr ⟨r, hr, hxk ▸ hkr⟩) (by simp [hpos])

/-- Every row of the table after a batch of upserts is either untouched, a
fresh insert, or the result of merging an incoming row into some row. -/
theorem mem_upsertAll {t : List Row} {rows : List New} {r : Row}
    (h : r ∈ upsertAll key keyN mk mrg t rows) :
    r ∈ t ∨ ∃ n ∈ rows, r = mk n ∨ ∃ v, r = mrg v n := by
  induction rows generalizing t with
  | nil => exact Or.inl h
  | cons n rows ih =>
    have hstep : upsertAll key keyN mk mrg t (n :: rows)
        = upsertAll key keyN mk mrg (upsertRow key keyN mk mrg t n) rows := rfl
    rw [hstep] at h
    rcases ih h with h1 | ⟨m, hm, hcase⟩
    · unfold upsertRow at h1
      by_cases hpos : hasKey key t (keyN n) = true
      · rw [if_pos hpos] at h1
        obtain ⟨v, hv, hveq⟩ := List.mem_map.mp h1
        by_cases hkv : key v = keyN n
        · rw [if_pos hkv] at hveq
          exact Or.inr ⟨n, List.mem_cons_self n rows, Or.inr ⟨v, hveq.symm⟩⟩
        · rw [if_neg hkv] at hveq
          exact Or.inl (hveq ▸ hv)
      · rw [if_neg hpos] at h1
        rcases List.mem_append.mp h1 with h2 | h2
        · exact Or.inl h2
        · exact Or.inr ⟨n, List.mem_cons_self n rows,
            Or.inl (by simpa using h2)⟩
    · exact Or.inr ⟨m, List.mem_cons.mpr (Or.inr hm), hcase⟩

end LookupLaws

/-! ## SQL scalar helpers -/

/-- Postgres `LEAST(a, b)`: NULLs are ignored, not propagated. -/
def sqlLeast : Option Int → Option Int → Option Int
  | none, b => b
  | some a, none => some a
  | some a, some b => some (min a b)

/-- Postgres `GREATEST(a, b)`: NULLs are ignored, not propagated. -/
def sqlGreatest : Option Int → Option Int → Option Int
  | none, b => b
  | some a, none => some a
  | some a, some b => some (max a b)

/-- Rounding to 2 decimal places (`round(x, 2)`). -/
def round2 (q : Rat) : Rat := (round (q * 100) : Int) / 100

/-- The ratio-field computation of `transform_toques_daily` and
`transform_campaigns`: `round(num / den * 100, 2) if den > 0 else 0`. -/
def ratioPct (num den : Int) : Rat :=
  if 0 < den then round2 ((num : Rat) / (den : Rat) * 100) else 0

/-- Does `pat` start the character list `s`? -/
def listStarts : List Char → List Char → Bool
  | [], _ => true
  | _ :: _, [] => false
  | p :: ps, c :: cs => p = c && listStarts ps cs

/-- Does `pat` occur somewhere inside the character list? -/
def listOccurs (pat : List Char) : List Char → Bool
  | [] => listStarts pat []
  | c :: cs => listStarts pat (c :: cs) || listOccurs pat cs

/-- `s LIKE '%pat%'`: does `pat` occur inside `s`? -/
def containsSub (pat s : String) : Bool := listOccurs pat.data s.data

def TENANT_ID : String := "visionamos"

def APP_ID : String := "100274"

/-! ## Transform: contacts

Embedding of `CONTACTS_SQL` / `CONTACTS_UPSERT` / `transform_contacts`.
A `ContactElem` is one element of the `source_data->'data'` array with only
the fields the SQL reads, after type coercion (`::timestamptz::date` becomes
a day number).  A snapshot whose `data` key is missing or not a JSON array is
modelled with `source_data = none` (the `jsonb_typeof` filter of `raw_rows`). -/

structure ContactElem where
  contactId : Option String
  profileName : Option String
  createdAt : Option Int
  updatedAt : Option Int
deriving DecidableEq

structure ContactSnapshot where
  tenant_id : Option String
  loaded_at : Int
  source_data : Option (List ContactElem)
deriving DecidableEq

structure ContactFlat where
  tenant_id : String
  contact_id : String
  contact_name : Option String
  first_contact : Option Int
  last_contact : Option Int
  loaded_at : Int
deriving DecidableEq

/-- The `raw_rows` + `flattened` CTEs: coalesce the tenant, unnest the array,
keep only elements with a non-NULL `contactId`. -/
def contactsFlattened (raws : List ContactSnapshot) : List ContactFlat :=
  (raws.map (fun s =>
    match s.source_data with
    | none => []
    | some elems =>
      elems.filterMap (fun e =>
        match e.contactId with
        | none => none
        | some cid => some
            { tenant_id := s.tenant_id.getD TENANT_ID
              contact_id := cid
              contact_name := e.profileName
              first_contact := e.createdAt
              last_contact := e.updatedAt
              loaded_at := s.loaded_at }))).flatten

def contactKey (r : ContactFlat) : String × String := (r.tenant_id, r.contact_id)

/-- `ORDER BY last_contact DESC NULLS LAST, loaded_at DESC` as a rank (bigger
wins): non-NULL `last_contact` outranks NULL, then the date, then `loaded_at`. -/
def contactRank (r : ContactFlat) : Int × Int × Int :=
  match r.last_contact with
  | some x => (1, x, r.loaded_at)
  | none => (0, 0, r.loaded_at)

/-- The full `CONTACTS_SQL` query: flatten, then keep row number 1 per
`(tenant_id, contact_id)` partition. -/
def CONTACTS_SQL (raws : List ContactSnapshot) : List ContactFlat :=
  dedupByKey contactKey (beatsR contactRank) (contactsFlattened raws)

/-- One row of `public.contacts`. -/
structure ContactRow where
  tenant_id : String
  contact_id : String
  contact_name : Option String
  total_messages : Int
  first_contact : Option Int
  last_contact : Option Int
  total_conversations : Int
deriving DecidableEq

def contactRowKey (r : ContactRow) : String × String := (r.tenant_id, r.contact_id)

/-- The VALUES tuple of `CONTACTS_UPSERT` (counters hard-coded to 0). -/
def contactsInsert (n : ContactFlat) : ContactRow :=
  { tenant_id := n.tenant_id
    contact_id := n.contact_id
    contact_name := n.contact_name
    total_messages := 0
    first_contact := n.first_contact
    last_contact := n.last_contact
    total_conversations := 0 }

/-- The `ON CONFLICT ... DO UPDATE SET` clause of `CONTACTS_UPSERT`. -/
def contactsMerge (r : ContactRow) (n : ContactFlat) : ContactRow :=
  { r with
    contact_name := n.contact_name
    first_contact := sqlLeast r.first_contact n.first_contact
    last_contact := sqlGreatest r.last_contact n.last_contact }

/-- One execution of the `CONTACTS_UPSERT` statement. -/
def CONTACTS_UPSERT (t : List ContactRow) (n : ContactFlat) : List ContactRow :=
  upsertRow contactRowKey contactKey contactsInsert contactsMerge t n

def transform_contacts (raws : List ContactSnapshot) (t : List ContactRow) :
    List ContactRow × Nat :=
  (upsertAll contactRowKey contactKey contactsInsert contactsMerge t (CONTACTS_SQL raws),
   (CONTACTS_SQL raws).length)

/-! ## Transform: toques_daily -/

structure ToquesElem where
  platformGroup : Option String
  statsDate : Option Int
  numDevicesSent : Option Int
  numDevicesSuccess : Option Int
  numDevicesReceived : Option Int
  numDevicesClicked : Option Int
deriving DecidableEq

/-- Payload of one `raw.raw_push_stats` snapshot.  `dataArray` models
`{"data": [...]}` (the shape `TOQUES_DAILY_SQL` accepts), `dataObject` models
`{"data": {"weekday-hour": {...}}}` (the shape `HEATMAP_SQL` accepts, with a
weekday entry `none` when its value is not a JSON object), and `other` any
payload rejected by both `jsonb_typeof` filters. -/
inductive PushPayload where
  | dataArray (elems : List ToquesElem)
  | dataObject (weekdayHour : List (String × Option (List (Int × Rat))))
  | other
deriving DecidableEq

structure PushSnapshot where
  tenant_id : Option String
  application_id : Option String
  endpoint : String
  loaded_at : Int
  source_data : PushPayload
deriving DecidableEq

structure ToquesFlat where
  tenant_id : String
  proyecto_cuenta : String
  canal : String
  date : Int
  enviados : Int
  entregados : Int
  abiertos : Int
  clicks : Int
  loaded_at : Int
deriving DecidableEq

/-- `raw_rows` + `flattened` of `TOQUES_DAILY_SQL`: keep `/dateStats`
snapshots with an array payload, unnest, keep elements with non-NULL
`platformGroup` and `statsDate`, coalesce the counters to 0. -/
def toquesFlattened (raws : List PushSnapshot) : List ToquesFlat :=
  (raws.map (fun s =>
    if containsSub "/dateStats" s.endpoint then
      match s.source_data with
      | PushPayload.dataArray elems =>
        elems.filterMap (fun e =>
          match e.platformGroup, e.statsDate with
          | some pg, some d => some
              { tenant_id := s.tenant_id.getD TENANT_ID
                proyecto_cuenta := s.application_id.getD APP_ID
                canal := pg
                date := d
                enviados := e.numDevicesSent.getD 0
                entregados := e.numDevicesSuccess.getD 0
                abiertos := e.numDevicesReceived.getD 0
                clicks := e.numDevicesClicked.getD 0
                loaded_at := s.loaded_at }
          | _, _ => none)
      | _ => []
    else [])).flatten

def toquesKey (r : ToquesFlat) : String × Int × String × String :=
  (r.tenant_id, r.date, r.canal, r.proyecto_cuenta)

/-- `ORDER BY loaded_at DESC` as a rank. -/
def toquesRank (r : ToquesFlat) : Int × Int × Int := (0, 0, r.loaded_at)

def TOQUES_DAILY_SQL (raws : List PushSnapshot) : List ToquesFlat :=
  dedupByKey toquesKey (beatsR toquesRank) (toquesFlattened raws)

/-- One row of `public.toques_daily`. -/
structure ToquesRow where
  tenant_id : String
  date : Int
  canal : String
  proyecto_cuenta : String
  enviados : Int
  entregados : Int
  clicks : Int
  chunks : Int
  usuarios_unicos : Int
  abiertos : Int
  rebotes : Int
  bloqueados : Int
  spam : Int
  desuscritos : Int
  conversiones : Int
  ctr : Rat
  tasa_entrega : Rat
  open_rate : Rat
  conversion_rate : Rat
deriving DecidableEq

def toquesRowKey (r : ToquesRow) : String × Int × String × String :=
  (r.tenant_id, r.date, r.canal, r.proyecto_cuenta)

/-- The VALUES tuple of `TOQUES_DAILY_UPSERT`, with the ratio parameters
exactly as `transform_toques_daily` computes them. -/
def toquesInsert (n : ToquesFlat) : ToquesRow :=
  { tenant_id := n.tenant_id
    date := n.date
    canal := n.canal
    proyecto_cuenta := n.proyecto_cuenta
    enviados := n.enviados
    entregados := n.entregados
    clicks := n.clicks
    chunks := 0
    usuarios_unicos := 0
    abiertos := n.abiertos
    rebotes := 0
    bloqueados := 0
    spam := 0
    desuscritos := 0
    conversiones := 0
    ctr := ratioPct n.clicks n.enviados
    tasa_entrega := ratioPct n.entregados n.enviados
    open_rate := ratioPct n.abiertos n.entregados
    conversion_rate := 0 }

/-- The `ON CONFLICT ... DO UPDATE SET` clause of `TOQUES_DAILY_UPSERT`:
counters and ratio fields take the new value. -/
def toquesMerge (r : ToquesRow) (n : ToquesFlat) : ToquesRow :=
  { r with
    enviados := n.enviados
    entregados := n.entregados
    clicks := n.clicks
    abiertos := n.abiertos
    ctr := ratioPct n.clicks n.enviados
    tasa_entrega := ratioPct n.entregados n.enviados
    open_rate := ratioPct n.abiertos n.entregados }

/-- One execution of the `TOQUES_DAILY_UPSERT` statement. -/
def TOQUES_DAILY_UPSERT (t : List ToquesRow) (n : ToquesFlat) : List ToquesRow :=
  upsertRow toquesRowKey toquesKey toquesInsert toquesMerge t n

def transform_toques_daily (raws : List PushSnapshot) (t : List ToquesRow) :
    List ToquesRow × Nat :=
  (upsertAll toquesRowKey toquesKey toquesInsert toquesMerge t (TOQUES_DAILY_SQL raws),
   (TOQUES_DAILY_SQL raws).length)

/-! ## Transform: toques_heatmap -/

/-- One `/pushHeatmap` snapshot surviving the endpoint and payload-shape
filters of the `raw_rows` CTE of `HEATMAP_SQL`. -/
structure HeatSource where
  tenant_id : String
  loaded_at : Int
  weekdayHour : List (String × Option (List (Int × Rat)))
deriving DecidableEq

def heatmapSources (raws : List PushSnapshot) : List HeatSource :=
  raws.filterMap (fun s =>
    if containsSub "/pushHeatmap" s.endpoint then
      match s.source_data with
      | PushPayload.dataObject wh =>
        some { tenant_id := s.tenant_id.getD TENANT_ID, loaded_at := s.loaded_at,
               weekdayHour := wh }
      | _ => none
    else none)

def heatRank (s : HeatSource) : Int × Int × Int := (0, 0, s.loaded_at)

/-- The `latest` CTE: row number 1 per tenant under `ORDER BY loaded_at DESC`. -/
def heatmapLatest (raws : List PushSnapshot) : List HeatSource :=
  dedupByKey (fun s => s.tenant_id) (beatsR heatRank) (heatmapSources raws)

/-- The `CASE w.weekday_key ... END` expression. -/
def diaOrden : String → Int
  | "monday" => 1
  | "tuesday" => 2
  | "wednesday" => 3
  | "thursday" => 4
  | "friday" => 5
  | "saturday" => 6
  | "sunday" => 7
  | _ => 0

structure HeatFlat where
  tenant_id : String
  canal : String
  dia_semana : String
  hora : Int
  ctr : Rat
  dia_orden : Int
deriving DecidableEq

/-- The cells contributed by one weekday entry: nothing when the weekday
value is not a JSON object, one row per hour key otherwise. -/
def heatWeekdayBlock (l : HeatSource) (wd : String × Option (List (Int × Rat))) :
    List HeatFlat :=
  match wd.2 with
  | none => []
  | some hours =>
    hours.map (fun h =>
      { tenant_id := l.tenant_id
        canal := "push"
        dia_semana := wd.1
        hora := h.1
        ctr := round2 (h.2 * 100)
        dia_orden := diaOrden wd.1 })

/-- The `weekday_entries` + `flattened` CTEs applied to one latest snapshot:
`jsonb_each` over the weekday map (objects only), then over each hour map. -/
def heatCells (l : HeatSource) : List HeatFlat :=
  (l.weekdayHour.map (heatWeekdayBlock l)).flatten

def HEATMAP_SQL (raws : List PushSnapshot) : List HeatFlat :=
  ((heatmapLatest raws).map heatCells).flatten

/-- One row of `public.toques_heatmap`. -/
structure HeatRow where
  tenant_id : String
  canal : String
  dia_semana : String
  hora : Int
  enviados : Int
  clicks : Int
  abiertos : Int
  conversiones : Int
  ctr : Rat
  dia_orden : Int
deriving DecidableEq

def heatKey (n : HeatFlat) : String × String × String × Int :=
  (n.tenant_id, n.canal, n.dia_semana, n.hora)

def heatRowKey (r : HeatRow) : String × String × String × Int :=
  (r.tenant_id, r.canal, r.dia_semana, r.hora)

def heatInsert (n : HeatFlat) : HeatRow :=
  { tenant_id := n.tenant_id
    canal := n.canal
    dia_semana := n.dia_semana
    hora := n.hora
    enviados := 0
    clicks := 0
    abiertos := 0
    conversiones := 0
    ctr := n.ctr
    dia_orden := n.dia_orden }

def heatMerge (r : HeatRow) (n : HeatFlat) : HeatRow :=
  { r with ctr := n.ctr, dia_orden := n.dia_orden }

/-- One execution of the `HEATMAP_UPSERT` statement. -/
def HEATMAP_UPSERT (t : List HeatRow) (n : HeatFlat) : List HeatRow :=
  upsertRow heatRowKey heatKey heatInsert heatMerge t n

def transform_heatmap (raws : List PushSnapshot) (t : List HeatRow) :
    List HeatRow × Nat :=
  (upsertAll heatRowKey heatKey heatInsert heatMerge t (HEATMAP_SQL raws),
   (HEATMAP_SQL raws).length)

/-! ## Transform: campaigns -/

structure CampaignElem where
  id : Option String
  campaignId : Option String
  name : Option String
  title : Option String
  channel : Option String
  type : Option String
  applicationId : Option String
  status : Option String
  sent : Option Int
  delivered : Option Int
  clicked : Option Int
  startDate : Option Int
  endDate : Option Int
  opened : Option Int
  bounced : Option Int
  blocked : Option Int
  spam : Option Int
  unsubscribed : Option Int
  converted : Option Int
deriving DecidableEq

structure CampaignSnapshot where
  tenant_id : Option String
  loaded_at : Int
  source_data : Option (List CampaignElem)
deriving DecidableEq

structure CampaignFlat where
  tenant_id : String
  campana_id : String
  campana_nombre : String
  canal : String
  proyecto_cuenta : String
  tipo_campana : Option String
  total_enviados : Int
  total_entregados : Int
  total_clicks : Int
  fecha_inicio : Option Int
  fecha_fin : Option Int
  total_abiertos : Int
  total_rebotes : Int
  total_bloqueados : Int
  total_spam : Int
  total_desuscritos : Int
  total_conversiones : Int
  loaded_at : Int
deriving DecidableEq

/-- `raw_rows` + `flattened` of `CAMPAIGNS_SQL` combined with the
`WHERE campana_id IS NOT NULL` filter of its `deduplicated` CTE. -/
def campaignsFlattened (raws : List CampaignSnapshot) : List CampaignFlat :=
  (raws.map (fun s =>
    match s.source_data with
    | none => []
    | some elems =>
      elems.filterMap (fun e =>
        match e.id <|> e.campaignId with
        | none => none
        | some cid => some
            { tenant_id := s.tenant_id.getD TENANT_ID
              campana_id := cid
              campana_nombre := (e.name <|> e.title).getD "Sin nombre"
              canal := (e.channel <|> e.type).getD "push"
              proyecto_cuenta := e.applicationId.getD APP_ID
              tipo_campana := e.status
              total_enviados := e.sent.getD 0
              total_entregados := e.delivered.getD 0
              total_clicks := e.clicked.getD 0
              fecha_inicio := e.startDate
              fecha_fin := e.endDate
              total_abiertos := e.opened.getD 0
              total_rebotes := e.bounced.getD 0
              total_bloqueados := e.blocked.getD 0
              total_spam := e.spam.getD 0
              total_desuscritos := e.unsubscribed.getD 0
              total_conversiones := e.converted.getD 0
              loaded_at := s.loaded_at }))).flatten

def campKey (r : CampaignFlat) : String × String := (r.tenant_id, r.campana_id)

def campRank (r : CampaignFlat) : Int × Int × Int := (0, 0, r.loaded_at)

def CAMPAIGNS_SQL (raws : List CampaignSnapshot) : List CampaignFlat :=
  dedupByKey campKey (beatsR campRank) (campaignsFlattened raws)

/-- One row of `public.campaigns`. -/
structure CampaignRow where
  tenant_id : String
  campana_id : String
  campana_nombre : String
  canal : String
  proyecto_cuenta : String
  tipo_campana : Option String
  total_enviados : Int
  total_entregados : Int
  total_clicks : Int
  total_chunks : Int
  fecha_inicio : Option Int
  fecha_fin : Option Int
  total_abiertos : Int
  total_rebotes : Int
  total_bloqueados : Int
  total_spam : Int
  total_desuscritos : Int
  total_conversiones : Int
  ctr : Rat
  tasa_entrega : Rat
  open_rate : Rat
  conversion_rate : Rat
deriving DecidableEq

def campRowKey (r : CampaignRow) : String × String := (r.tenant_id, r.campana_id)

/-- The VALUES tuple of `CAMPAIGNS_UPSERT`, ratios as `transform_campaigns`
computes them. -/
def campInsert (n : CampaignFlat) : CampaignRow :=
  { tenant_id := n.tenant_id
    campana_id := n.campana_id
    campana_nombre := n.campana_nombre
    canal := n.canal
    proyecto_cuenta := n.proyecto_cuenta
    tipo_campana := n.tipo_campana
    total_enviados := n.total_enviados
    total_entregados := n.total_entregados
    total_clicks := n.total_clicks
    total_chunks := 0
    fecha_inicio := n.fecha_inicio
    fecha_fin := n.fecha_fin
    total_abiertos := n.total_abiertos
    total_rebotes := n.total_rebotes
    total_bloqueados := n.total_bloqueados
    total_spam := n.total_spam
    total_desuscritos := n.total_desuscritos
    total_conversiones := n.total_conversiones
    ctr := ratioPct n.total_clicks n.total_enviados
    tasa_entrega := ratioPct n.total_entregados n.total_enviados
    open_rate := ratioPct n.total_abiertos n.total_entregados
    conversion_rate := ratioPct n.total_conversiones n.total_clicks }

/-- The `ON CONFLICT ... DO UPDATE SET` clause of `CAMPAIGNS_UPSERT`: every
column except `total_chunks` takes the new value. -/
def campMerge (r : CampaignRow) (n : CampaignFlat) : CampaignRow :=
  { r with
    campana_nombre := n.campana_nombre
    canal := n.canal
    proyecto_cuenta := n.proyecto_cuenta
    tipo_campana := n.tipo_campana
    total_enviados := n.total_enviados
    total_entregados := n.total_entregados
    total_clicks := n.total_clicks
    fecha_inicio := n.fecha_inicio
    fecha_fin := n.fecha_fin
    total_abiertos := n.total_abiertos
    total_rebotes := n.total_rebotes
    total_bloqueados := n.total_bloqueados
    total_spam := n.total_spam
    total_desuscritos := n.total_desuscritos
    total_conversiones := n.total_conversiones
    ctr := ratioPct n.total_clicks n.total_enviados
    tasa_entrega := ratioPct n.total_entregados n.total_enviados
    open_rate := ratioPct n.total_abiertos n.total_entregados
    conversion_rate := ratioPct n.total_conversiones n.total_clicks }

/-- One execution of the `CAMPAIGNS_UPSERT` statement. -/
def CAMPAIGNS_UPSERT (t : List CampaignRow) (n : CampaignFlat) : List CampaignRow :=
  upsertRow campRowKey campKey campInsert campMerge t n

def transform_campaigns (raws : List CampaignSnapshot) (t : List CampaignRow) :
    List CampaignRow × Nat :=
  (upsertAll campRowKey campKey campInsert campMerge t (CAMPAIGNS_SQL raws),
   (CAMPAIGNS_SQL raws).length)

/-! ## Transform: daily_stats (aggregated from public.toques_daily) -/

/-- One row of `public.daily_stats`; also the shape of one `DAILY_STATS_SQL`
result row. -/
structure DailyStatRow where
  tenant_id : String
  date : Int
  total_messages : Int
  unique_contacts : Int
  conversations : Int
  fallback_count : Int
deriving DecidableEq

def dailyKey (r : DailyStatRow) : String × Int := (r.tenant_id, r.date)

def sumEnviados (l : List ToquesRow) : Int :=
  l.foldl (fun acc r => acc + r.enviados) 0

/-- `SELECT tenant_id, date, coalesce(sum(enviados), 0), 0, 0, 0 FROM
public.toques_daily WHERE tenant_id = :tid GROUP BY tenant_id, date`,
group keys in first-appearance order. -/
def DAILY_STATS_SQL (toques : List ToquesRow) : List DailyStatRow :=
  let base := toques.filter (fun r => r.tenant_id = TENANT_ID)
  ((base.map (fun r => (r.tenant_id, r.date))).dedup).map (fun k =>
    { tenant_id := k.1
      date := k.2
      total_messages := sumEnviados (base.filter (fun r => (r.tenant_id, r.date) = k))
      unique_contacts := 0
      conversations := 0
      fallback_count := 0 })

def dailyMerge (r n : DailyStatRow) : DailyStatRow :=
  { r with
    total_messages := n.total_messages
    unique_contacts := n.unique_contacts
    conversations := n.conversations
    fallback_count := n.fallback_count }

/-- One execution of the `DAILY_STATS_UPSERT` statement. -/
def DAILY_STATS_UPSERT (t : List DailyStatRow) (n : DailyStatRow) : List DailyStatRow :=
  upsertRow dailyKey dailyKey id dailyMerge t n

def transform_daily_stats (toques : List ToquesRow) (t : List DailyStatRow) :
    List DailyStatRow × Nat :=
  (upsertAll dailyKey dailyKey id dailyMerge t (DAILY_STATS_SQL toques),
   (DAILY_STATS_SQL toques).length)

/-! ## Sync state and the main loop -/

/-- One row of `public.sync_state`. -/
structure SyncRow where
  tenant_id : String
  entity : String
  last_sync_at : Int
  records_synced : Int
  status : String
deriving DecidableEq

def syncKey (r : SyncRow) : String × String := (r.tenant_id, r.entity)

/-- The `DO UPDATE SET` clause of the `sync_state` upsert. -/
def syncMerge (r n : SyncRow) : SyncRow :=
  { r with
    last_sync_at := n.last_sync_at
    records_synced := n.records_synced
    status := n.status }

/-- `update_sync_state(conn, entity, records, status)`: an upsert keyed by
`(tenant_id, entity)` with `tenant_id = TENANT_ID` and the wall-clock time
passed in as `ts`. -/
def update_sync_state (t : List SyncRow) (entity : String) (ts : Int)
    (records : Int) (status : String) : List SyncRow :=
  upsertRow syncKey syncKey id syncMerge t
    { tenant_id := TENANT_ID, entity := entity, last_sync_at := ts,
      records_synced := records, status := status }

/-- The whole database state the transform bridge touches. -/
structure PublicDB where
  contacts : List ContactRow
  toques_daily : List ToquesRow
  toques_heatmap : List HeatRow
  campaigns : List CampaignRow
  daily_stats : List DailyStatRow
  sync_state : List SyncRow
deriving DecidableEq

/-- The raw landing store read by the transform bridge. -/
structure RawDB where
  raw_contacts_api : List ContactSnapshot
  raw_push_stats : List PushSnapshot
  raw_campaigns_api : List CampaignSnapshot
deriving DecidableEq

/-- The five entries of the `TRANSFORMS` table, in source order. -/
inductive Entity where
  | contacts
  | toques_daily
  | toques_heatmap
  | campaigns
  | daily_stats
deriving DecidableEq

def entityName : Entity → String
  | .contacts => "contacts"
  | .toques_daily => "toques_daily"
  | .toques_heatmap => "toques_heatmap"
  | .campaigns => "campaigns"
  | .daily_stats => "daily_stats"

def TRANSFORMS : List Entity :=
  [.contacts, .toques_daily, .toques_heatmap, .campaigns, .daily_stats]

/-- `transform_fn(conn)` for one entity: the new database state plus the row
count the function returns.  `daily_stats` reads the already-committed
`public.toques_daily` of the state it is given. -/
def applyTransform (raw : RawDB) (e : Entity) (db : PublicDB) : PublicDB × Nat :=
  match e with
  | .contacts =>
    let p := transform_contacts raw.raw_contacts_api db.contacts
    ({ db with contacts := p.1 }, p.2)
  | .toques_daily =>
    let p := transform_toques_daily raw.raw_push_stats db.toques_daily
    ({ db with toques_daily := p.1 }, p.2)
  | .toques_heatmap =>
    let p := transform_heatmap raw.raw_push_stats db.toques_heatmap
    ({ db with toques_heatmap := p.1 }, p.2)
  | .campaigns =>
    let p := transform_campaigns raw.raw_campaigns_api db.campaigns
    ({ db with campaigns := p.1 }, p.2)
  | .daily_stats =>
    let p := transform_daily_stats db.toques_daily db.daily_stats
    ({ db with daily_stats := p.1 }, p.2)

/-- One iteration of the `for entity, transform_fn in TRANSFORMS` loop of
`main`.  `outcome e = none` models a run in which `transform_fn` raises no
exception: the transform and its success sync-state write commit together.
`outcome e = some msg` models an unrecoverable error with message `msg`: the
`engine.begin()` context manager rolls the entity's transaction back (the
database keeps its prior state) and a fresh transaction records the error
row, with `records = 0` and the message truncated to 200 characters. -/
def mainStep (raw : RawDB) (outcome : Entity → Option String) (ts : Int)
    (db : PublicDB) (e : Entity) : PublicDB :=
  match outcome e with
  | none =>
    let p := applyTransform raw e db
    { p.1 with
      sync_state := update_sync_state p.1.sync_state (entityName e) ts (p.2 : Int)
        "success" }
  | some msg =>
    { db with
      sync_state := update_sync_state db.sync_state (entityName e) ts 0
        ("error: " ++ msg.take 200) }

/-- The `main()` driver: run the five transforms in order, isolating
failures per entity. -/
def main (raw : RawDB) (outcome : Entity → Option String) (ts : Int)
    (db : PublicDB) : PublicDB :=
  TRANSFORMS.foldl (mainStep raw outcome ts) db

/-! ## Extractor pagination loop

Embedding of the shared `for page_num in range(MAX_PAGES)` loop of
`contacts_extractor.py`, `campaigns_extractor.py` and `chat_extractor.py`
(the latter advances an offset instead of a page number, with identical
control flow).  `fetch i` is the list of items the API returns for the
`i`-th request of the loop; issuing a request and persisting a page are
recorded as trace events.  `_store_raw` itself is not under `scripts/` in
the sources at hand; modelled from the spec: each successful page is
appended verbatim as one RawSnapshot to the Raw Landing Store. -/

def MAX_PAGES : Nat := 50

inductive PageEvent where
  | call (i : Nat)
  | store (i : Nat)
deriving DecidableEq

/-- The page loop body, as the trace of its client calls and raw-store
appends: fetch page `i`; if it is empty, stop without storing; otherwise
store it, and stop if it is shorter than the page size, else continue with
the next page while the `range(MAX_PAGES)` budget (`fuel`) lasts. -/
def pageTrace (fetch : Nat → Nat) (pageSize : Nat) : Nat → Nat → List PageEvent
  | 0, _ => []
  | fuel + 1, i =>
    PageEvent.call i ::
      (if fetch i = 0 then []
       else if fetch i < pageSize then [PageEvent.store i]
       else PageEvent.store i :: pageTrace fetch pageSize fuel (i + 1))

def isCallEvt : PageEvent → Bool
  | PageEvent.call _ => true
  | _ => false

def isStoreEvt : PageEvent → Bool
  | PageEvent.store _ => true
  | _ => false

/-- The pagination loop of `_extract_for_app`, summarised as the number of
API calls issued and the number of RawSnapshots stored. -/
def extractForApp (fetch : Nat → Nat) (pageSize : Nat) : Nat × Nat :=
  ((pageTrace fetch pageSize MAX_PAGES 0).countP isCallEvt,
   (pageTrace fetch pageSize MAX_PAGES 0).countP isStoreEvt)

/-! ## Per-entity merge laws -/

theorem sqlLeast_absorb (a b : Option Int) : sqlLeast (sqlLeast a b) b = sqlLeast a b := by
  cases a <;> cases b <;> simp [sqlLeast]

theorem sqlLeast_self (a : Option Int) : sqlLeast a a = a := by
  cases a <;> simp [sqlLeast]

theorem sqlGreatest_absorb (a b : Option Int) :
    sqlGreatest (sqlGreatest a b) b = sqlGreatest a b := by
  cases a <;> cases b <;> simp [sqlGreatest]

theorem sqlGreatest_self (a : Option Int) : sqlGreatest a a = a := by
  cases a <;> simp [sqlGreatest]

theorem contactsMerge_absorb (v : ContactRow) (n : ContactFlat) :
    contactsMerge (contactsMerge v n) n = contactsMerge v n := by
  simp [contactsMerge, sqlLeast_absorb, sqlGreatest_absorb]

theorem contactsMerge_insert (n : ContactFlat) :
    contactsMerge (contactsInsert n) n = contactsInsert n := by
  simp [contactsMerge, contactsInsert, sqlLeast_self, sqlGreatest_self]

theorem toquesMerge_absorb (v : ToquesRow) (n : ToquesFlat) :
    toquesMerge (toquesMerge v n) n = toquesMerge v n := rfl

theorem toquesMerge_insert (n : ToquesFlat) :
    toquesMerge (toquesInsert n) n = toquesInsert n := rfl

theorem heatMerge_absorb (v : HeatRow) (n : HeatFlat) :
    heatMerge (heatMerge v n) n = heatMerge v n := rfl

theorem heatMerge_insert (n : HeatFlat) :
    heatMerge (heatInsert n) n = heatInsert n := rfl

theorem campMerge_absorb (v : CampaignRow) (n : CampaignFlat) :
    campMerge (campMerge v n) n = campMerge v n := rfl

theorem campMerge_insert (n : CampaignFlat) :
    campMerge (campInsert n) n = campInsert n := rfl

theorem dailyMerge_absorb (v n : DailyStatRow) :
    dailyMerge (dailyMerge v n) n = dailyMerge v n := rfl

theorem dailyMerge_insert (n : DailyStatRow) : dailyMerge (id n) n = id n := by
  cases n
  rfl

theorem syncMerge_of_key_eq (r n : SyncRow) (h : syncKey r = syncKey n) :
    syncMerge r n = n := by
  cases r
  cases n
  simp only [syncKey, Prod.mk.injEq] at h
  simp [syncMerge, h.1, h.2]

/-! ## Pagination loop lemmas -/

theorem pageTrace_counts_full (fetch : Nat → Nat) (ps : Nat) (hps : 0 < ps) :
    ∀ fuel start, (∀ j, j < fuel → ps ≤ fetch (start + j)) →
      (pageTrace fetch ps fuel start).countP isCallEvt = fuel ∧
      (pageTrace fetch ps fuel start).countP isStoreEvt = fuel := by
  intro fuel
  induction fuel with
  | zero => intro start _; simp [pageTrace]
  | succ fuel ih =>
    intro start hfull
    have h0 : ps ≤ fetch start := by simpa using hfull 0 (Nat.succ_pos fuel)
    have hne : ¬ fetch start = 0 := by omega
    have hnlt : ¬ fetch start < ps := by omega
    have hrec := ih (start + 1) (fun j hj => by
      have := hfull (j + 1) (by omega)
      simpa [Nat.add_assoc, Nat.add_comm 1 j] using this)
    simp only [pageTrace, if_neg hne, if_neg hnlt]
    simp [List.countP_cons, isCallEvt, isStoreEvt, hrec.1, hrec.2]

theorem pageTrace_counts_short (fetch : Nat → Nat) (ps : Nat) (hps : 0 < ps) :
    ∀ k fuel start, k < fuel → fetch (start + k) < ps →
      (∀ j, j < k → ps ≤ fetch (start + j)) →
      (pageTrace fetch ps fuel start).countP isCallEvt = k + 1 ∧
      (pageTrace fetch ps fuel start).countP isStoreEvt
        = k + (if fetch (start + k) = 0 then 0 else 1) := by
  intro k
  induction k with
  | zero =>
    intro fuel start hk hshort _
    obtain ⟨fuel', rfl⟩ : ∃ f, fuel = f + 1 := ⟨fuel - 1, by omega⟩
    rw [Nat.add_zero] at hshort
    by_cases h0 : fetch start = 0
    · simp [pageTrace, h0, isCallEvt, isStoreEvt]
    · simp [pageTrace, h0, hshort, isCallEvt, isStoreEvt, List.countP_cons]
  | succ k ih =>
    intro fuel start hk hshort hfull
    obtain ⟨fuel', rfl⟩ : ∃ f, fuel = f + 1 := ⟨fuel - 1, by omega⟩
    have h0 : ps ≤ fetch start := by simpa using hfull 0 (Nat.succ_pos k)
    have hne : ¬ fetch start = 0 := by omega
    have hnlt : ¬ fetch start < ps := by omega
    have hshift : start + 1 + k = start + (k + 1) := by omega
    have hrec := ih fuel' (start + 1) (by omega) (by rw [hshift]; exact hshort)
      (fun j hj => by
        have := hfull (j + 1) (by omega)
        have heq : start + 1 + j = start + (j + 1) := by omega
        rw [heq]
        exact this)
    rw [hshift] at hrec
    simp only [pageTrace, if_neg hne, if_neg hnlt]
    constructor
    · simp [List.countP_cons, isCallEvt, isStoreEvt, hrec.1]
    · simp only [List.countP_cons, isCallEvt, isStoreEvt, hrec.2]
      simp
      omega

theorem pageTrace_store_before_call (fetch : Nat → Nat) (ps : Nat) :
    ∀ fuel start k i, start ≤ i →
      PageEvent.call (i + 1) ∈ (pageTrace fetch ps fuel start).take k →
      PageEvent.store i ∈ (pageTrace fetch ps fuel start).take k := by
  intro fuel
  induction fuel with
  | zero => intro start k i _ h; simp [pageTrace] at h
  | succ fuel ih =>
    intro start k i hi h
    match k with
    | 0 => simp at h
    | k + 1 =>
      rw [pageTrace, List.take_succ_cons] at h ⊢
      rcases List.mem_cons.mp h with hhead | htail
      · exact absurd (by simpa using hhead) (by omega)
      · by_cases h0 : fetch start = 0
        · rw [if_pos h0] at htail
          simp at htail
        · rw [if_neg h0] at htail ⊢
          by_cases hlt : fetch start < ps
          · rw [if_pos hlt] at htail
            have hmem := List.mem_of_mem_take htail
            simp at hmem
          · rw [if_neg hlt] at htail ⊢
            match k with
            | 0 => simp at htail
            | k + 1 =>
              rw [List.take_succ_cons] at htail ⊢
              rcases List.mem_cons.mp htail with hhead2 | htail2
              · exact absurd hhead2 (by simp)
              · by_cases hieq : i = start
                · rw [hieq]
                  exact List.mem_cons.mpr (Or.inr (List.mem_cons_self _ _))
                · have hrec := ih (start + 1) k i (by omega) htail2
                  exact List.mem_cons.mpr (Or.inr (List.mem_cons.mpr (Or.inr hrec)))

/-! ## Claim C4: ratio guard -/

theorem ratioPct_of_nonpos {num den : Int} (h : ¬ 0 < den) : ratioPct num den = 0 := by
  simp [ratioPct, h]

theorem ratioPct_of_pos {num den : Int} (h : 0 < den) :
    ratioPct num den = round2 ((num : Rat) / (den : Rat) * 100) := by
  simp [ratioPct, h]

theorem toquesRatio_fields (n : ToquesFlat) (r : ToquesRow)
    (h : r = toquesInsert n ∨ ∃ v, r = toquesMerge v n) :
    r.enviados = n.enviados ∧ r.entregados = n.entregados ∧ r.clicks = n.clicks ∧
    r.abiertos = n.abiertos ∧ r.ctr = ratioPct n.clicks n.enviados ∧
    r.tasa_entrega = ratioPct n.entregados n.enviados ∧
    r.open_rate = ratioPct n.abiertos n.entregados := by
  rcases h with rfl | ⟨v, rfl⟩ <;> simp [toquesInsert, toquesMerge]

theorem campRatio_fields (n : CampaignFlat) (r : CampaignRow)
    (h : r = campInsert n ∨ ∃ v, r = campMerge v n) :
    r.total_enviados = n.total_enviados ∧ r.total_entregados = n.total_entregados ∧
    r.total_clicks = n.total_clicks ∧ r.total_abiertos = n.total_abiertos ∧
    r.total_conversiones = n.total_conversiones ∧
    r.ctr = ratioPct n.total_clicks n.total_enviados ∧
    r.tasa_entrega = ratioPct n.total_entregados n.total_enviados ∧
    r.open_rate = ratioPct n.total_abiertos n.total_entregados ∧
    r.conversion_rate = ratioPct n.total_conversiones n.total_clicks := by
  rcases h with rfl | ⟨v, rfl⟩ <;> simp [campInsert, campMerge]

/-- The ratio-field contract of the spec for one `toques_daily` row, stated
against the row's own counter columns. -/
def toquesRatioSpec (r : ToquesRow) : Prop :=
  (r.enviados = 0 → r.ctr = 0 ∧ r.tasa_entrega = 0) ∧
  (0 < r.enviados →
    r.ctr = round2 ((r.clicks : Rat) / (r.enviados : Rat) * 100) ∧
    r.tasa_entrega = round2 ((r.entregados : Rat) / (r.enviados : Rat) * 100)) ∧
  (r.entregados = 0 → r.open_rate = 0) ∧
  (0 < r.entregados →
    r.open_rate = round2 ((r.abiertos : Rat) / (r.entregados : Rat) * 100))

/-- The ratio-field contract of the spec for one `campaigns` row. -/
def campRatioSpec (r : CampaignRow) : Prop :=
  (r.total_enviados = 0 → r.ctr = 0 ∧ r.tasa_entrega = 0) ∧
  (0 < r.total_enviados →
    r.ctr = round2 ((r.total_clicks : Rat) / (r.total_enviados : Rat) * 100) ∧
    r.tasa_entrega = round2 ((r.total_entregados : Rat) / (r.total_enviados : Rat) * 100)) ∧
  (r.total_entregados = 0 → r.open_rate = 0) ∧
  (0 < r.total_entregados →
    r.open_rate = round2 ((r.total_abiertos : Rat) / (r.total_entregados : Rat) * 100)) ∧
  (r.total_clicks = 0 → r.conversion_rate = 0) ∧
  (0 < r.total_clicks →
    r.conversion_rate = round2 ((r.total_conversiones : Rat) / (r.total_clicks : Rat) * 100))

/-- C4: every row the toques_daily or campaigns transform writes carries
ratio fields equal to `numerator / denominator * 100` rounded to 2 decimals,
and a zero denominator yields ratio 0 — never an error or undefined value;
any other row of the resulting table is an untouched pre-existing row. -/
theorem ratio_guard :
    (∀ raws t r, r ∈ (transform_toques_daily raws t).1 →
      r ∈ t ∨ toquesRatioSpec r) ∧
    (∀ raws t r, r ∈ (transform_campaigns raws t).1 →
      r ∈ t ∨ campRatioSpec r) := by
  constructor
  · intro raws t r h
    rcases mem_upsertAll h with hmem | ⟨n, _, hcase⟩
    · exact Or.inl hmem
    · right
      obtain ⟨he, hen, hc, ha, hctr, htasa, hopen⟩ := toquesRatio_fields n r hcase
      refine ⟨?_, ?_, ?_, ?_⟩
      · intro h0
        rw [he] at h0
        rw [hctr, htasa, h0]
        constructor <;> exact ratioPct_of_nonpos (by omega)
      · intro h0
        rw [he] at h0
        rw [hctr, htasa, he, hc, hen, ratioPct_of_pos h0]
        exact ⟨rfl, by rw [ratioPct_of_pos h0]⟩
      · intro h0
        rw [hen] at h0
        rw [hopen, h0]
        exact ratioPct_of_nonpos (by omega)
      · intro h0
        rw [hen] at h0
        rw [hopen, hen, ha, ratioPct_of_pos h0]
  · intro raws t r h
    rcases mem_upsertAll h with hmem | ⟨n, _, hcase⟩
    · exact Or.inl hmem
    · right
      obtain ⟨he, hen, hc, ha, hcv, hctr, htasa, hopen, hconv⟩ := campRatio_fields n r hcase
      refine ⟨?_, ?_, ?_, ?_, ?_, ?_⟩
      · intro h0
        rw [he] at h0
        rw [hctr, htasa, h0]
        constructor <;> exact ratioPct_of_nonpos (by omega)
      · intro h0
        rw [he] at h0
        rw [hctr, htasa, he, hc, hen, ratioPct_of_pos h0]
        exact ⟨rfl, by rw [ratioPct_of_pos h0]⟩
      · intro h0
        rw [hen] at h0
        rw [hopen, h0]
        exact ratioPct_of_nonpos (by omega)
      · intro h0
        rw [hen] at h0
        rw [hopen, hen, ha, ratioPct_of_pos h0]
      · intro h0
        rw [hc] at h0
        rw [hconv, h0]
        exact ratioPct_of_nonpos (by omega)
      · intro h0
        rw [hc] at h0
        rw [hconv, hc, hcv, ratioPct_of_pos h0]

/-- An all-zero `/dateStats` element: `enviados = 0`. -/
def c4Snap : PushSnapshot :=
  { tenant_id := none, application_id := none, endpoint := "/v1/push/dateStats",
    loaded_at := 0,
    source_data := PushPayload.dataArray
      [{ platformGroup := some "android", statsDate := some 100,
         numDevicesSent := some 0, numDevicesSuccess := some 0,
         numDevicesReceived := some 0, numDevicesClicked := some 0 }] }

def c4Row : ToquesRow :=
  toquesInsert
    { tenant_id := TENANT_ID, proyecto_cuenta := APP_ID, canal := "android",
      date := 100, enviados := 0, entregados := 0, abiertos := 0, clicks := 0,
      loaded_at := 0 }

theorem ratio_guard_witness :
    c4Row ∈ (transform_toques_daily [c4Snap] []).1 ∧
    (c4Row ∈ ([] : List ToquesRow) ∨ toquesRatioSpec c4Row) :=
  ⟨by decide, ratio_guard.1 [c4Snap] [] c4Row (by decide)⟩

/-! ## Claim C5: pagination termination -/

/-- C5: the page loop stops exactly at a zero-item page, a short page, or
the MAX_PAGES bound: (1) all pages full up to the bound gives exactly
MAX_PAGES calls and stores; (2) a first zero or short page at index k gives
exactly k + 1 calls, the last page being stored unless it was empty; (3) an
endpoint returning pages of sizes 50, 50, 23 at page size 50 gives exactly 3
calls and 3 stored snapshots. -/
theorem pagination_termination :
    (∀ fetch ps, 0 < ps → (∀ i, i < MAX_PAGES → ps ≤ fetch i) →
      extractForApp fetch ps = (MAX_PAGES, MAX_PAGES)) ∧
    (∀ fetch ps k, 0 < ps → k < MAX_PAGES → fetch k < ps →
      (∀ i, i < k → ps ≤ fetch i) →
      extractForApp fetch ps = (k + 1, k + (if fetch k = 0 then 0 else 1))) ∧
    (∀ fetch, fetch 0 = 50 → fetch 1 = 50 → fetch 2 = 23 →
      extractForApp fetch 50 = (3, 3)) := by
  refine ⟨?_, ?_, ?_⟩
  · intro fetch ps hps hfull
    have h := pageTrace_counts_full fetch ps hps MAX_PAGES 0
      (fun j hj => by simpa using hfull j hj)
    simp [extractForApp, h.1, h.2]
  · intro fetch ps k hps hk hshort hfull
    have h := pageTrace_counts_short fetch ps hps k MAX_PAGES 0 hk
      (by simpa using hshort) (fun j hj => by simpa using hfull j hj)
    rw [Nat.zero_add] at h
    simp [extractForApp, h.1, h.2]
  · intro fetch h0 h1 h2
    have h := pageTrace_counts_short fetch 50 (by norm_num) 2 MAX_PAGES 0
      (by norm_num [MAX_PAGES]) (by simp [h2])
      (fun j hj => by
        interval_cases j
        · simp [h0]
        · simp [h1])
    rw [Nat.zero_add] at h
    rw [h2] at h
    simp [extractForApp, h.1, h.2]

def c5Fetch : Nat → Nat := fun i => [50, 50, 23].getD i 0

theorem pagination_termination_witness :
    c5Fetch 0 = 50 ∧ c5Fetch 1 = 50 ∧ c5Fetch 2 = 23 ∧
    extractForApp c5Fetch 50 = (3, 3) :=
  ⟨rfl, rfl, rfl, pagination_termination.2.2 c5Fetch rfl rfl rfl⟩

/-! ## Claim C7: every successful page is stored before the next request -/

/-- C7: in any prefix of the pagination loop's event trace, if the request
for page `i + 1` has already been issued then page `i` has already been
stored as a RawSnapshot: partial extraction progress is persisted before
pagination continues. -/
theorem store_before_next_call (fetch : Nat → Nat) (ps k i : Nat)
    (h : PageEvent.call (i + 1) ∈ (pageTrace fetch ps MAX_PAGES 0).take k) :
    PageEvent.store i ∈ (pageTrace fetch ps MAX_PAGES 0).take k :=
  pageTrace_store_before_call fetch ps MAX_PAGES 0 k i (Nat.zero_le i) h

theorem store_before_next_call_witness :
    PageEvent.call 1 ∈ (pageTrace c5Fetch 50 MAX_PAGES 0).take 3 ∧
    PageEvent.store 0 ∈ (pageTrace c5Fetch 50 MAX_PAGES 0).take 3 :=
  ⟨by decide, store_before_next_call c5Fetch 50 3 0 (by decide)⟩

/-! ## Claim C6: field-specific merge policy -/

/-- C6: a contacts upsert hitting an existing `(tenant_id, contact_id)` row
stores `first_contact` as the LEAST and `last_contact` as the GREATEST of
old and new (the minimum and maximum when both are non-NULL), while
toques_daily and campaigns upserts hitting an existing natural key overwrite
every counter field with the new value — never incrementing. -/
theorem merge_policy :
    (∀ t n r, lookupRow contactRowKey t (contactKey n) = some r →
      lookupRow contactRowKey (CONTACTS_UPSERT t n) (contactKey n)
        = some (contactsMerge r n) ∧
      (contactsMerge r n).contact_name = n.contact_name ∧
      (contactsMerge r n).first_contact = sqlLeast r.first_contact n.first_contact ∧
      (contactsMerge r n).last_contact = sqlGreatest r.last_contact n.last_contact ∧
      (∀ a b, r.first_contact = some a → n.first_contact = some b →
        (contactsMerge r n).first_contact = some (min a b)) ∧
      (∀ a b, r.last_contact = some a → n.last_contact = some b →
        (contactsMerge r n).last_contact = some (max a b))) ∧
    (∀ t n r, lookupRow toquesRowKey t (toquesKey n) = some r →
      lookupRow toquesRowKey (TOQUES_DAILY_UPSERT t n) (toquesKey n)
        = some (toquesMerge r n) ∧
      (toquesMerge r n).enviados = n.enviados ∧
      (toquesMerge r n).entregados = n.entregados ∧
      (toquesMerge r n).clicks = n.clicks ∧
      (toquesMerge r n).abiertos = n.abiertos) ∧
    (∀ t n r, lookupRow campRowKey t (campKey n) = some r →
      lookupRow campRowKey (CAMPAIGNS_UPSERT t n) (campKey n)
        = some (campMerge r n) ∧
      (campMerge r n).total_enviados = n.total_enviados ∧
      (campMerge r n).total_entregados = n.total_entregados ∧
      (campMerge r n).total_clicks = n.total_clicks ∧
      (campMerge r n).total_abiertos = n.total_abiertos ∧
      (campMerge r n).total_rebotes = n.total_rebotes ∧
      (campMerge r n).total_bloqueados = n.total_bloqueados ∧
      (campMerge r n).total_spam = n.total_spam ∧
      (campMerge r n).total_desuscritos = n.total_desuscritos ∧
      (campMerge r n).total_conversiones = n.total_conversiones) := by
  refine ⟨?_, ?_, ?_⟩
  · intro t n r hlook
    have h := @lookupRow_upsertRow_same _ _ _ _ contactRowKey contactKey
      contactsInsert contactsMerge (fun _ _ => rfl) (fun _ => rfl) t n
    rw [hlook] at h
    refine ⟨h, rfl, rfl, rfl, ?_, ?_⟩
    · intro a b ha hb
      simp [contactsMerge, sqlLeast, ha, hb]
    · intro a b ha hb
      simp [contactsMerge, sqlGreatest, ha, hb]
  · intro t n r hlook
    have h := @lookupRow_upsertRow_same _ _ _ _ toquesRowKey toquesKey
      toquesInsert toquesMerge (fun _ _ => rfl) (fun _ => rfl) t n
    rw [hlook] at h
    exact ⟨h, rfl, rfl, rfl, rfl⟩
  · intro t n r hlook
    have h := @lookupRow_upsertRow_same _ _ _ _ campRowKey campKey
      campInsert campMerge (fun _ _ => rfl) (fun _ => rfl) t n
    rw [hlook] at h
    exact ⟨h, rfl, rfl, rfl, rfl, rfl, rfl, rfl, rfl, rfl⟩

def c6Row : ContactRow :=
  { tenant_id := TENANT_ID, contact_id := "1", contact_name := some "A",
    total_messages := 0, first_contact := some 5, last_contact := some 10,
    total_conversations := 0 }

def c6New : ContactFlat :=
  { tenant_id := TENANT_ID, contact_id := "1", contact_name := some "B",
    first_contact := some 3, last_contact := some 7, loaded_at := 9 }

theorem merge_policy_witness :
    lookupRow contactRowKey [c6Row] (contactKey c6New) = some c6Row ∧
    (lookupRow contactRowKey (CONTACTS_UPSERT [c6Row] c6New) (contactKey c6New)
      = some (contactsMerge c6Row c6New) ∧
     (contactsMerge c6Row c6New).contact_name = c6New.contact_name ∧
     (contactsMerge c6Row c6New).first_contact
       = sqlLeast c6Row.first_contact c6New.first_contact ∧
     (contactsMerge c6Row c6New).last_contact
       = sqlGreatest c6Row.last_contact c6New.last_contact ∧
     (∀ a b, c6Row.first_contact = some a → c6New.first_contact = some b →
       (contactsMerge c6Row c6New).first_contact = some (min a b)) ∧
     (∀ a b, c6Row.last_contact = some a → c6New.last_contact = some b →
       (contactsMerge c6Row c6New).last_contact = some (max a b))) :=
  ⟨by decide, merge_policy.1 [c6Row] c6New c6Row (by decide)⟩

/-! ## Claim C8: sync_state is a keyed upsert -/

theorem update_sync_state_lookup_self (t : List SyncRow) (entity : String)
    (ts records : Int) (status : String) :
    lookupRow syncKey (update_sync_state t entity ts records status)
      (TENANT_ID, entity)
      = some ⟨TENANT_ID, entity, ts, records, status⟩ := by
  have h := @lookupRow_upsertRow_same _ _ _ _ syncKey syncKey
    id syncMerge (fun _ _ => rfl) (fun _ => rfl) t
    ⟨TENANT_ID, entity, ts, records, status⟩
  have hkv : syncKey ⟨TENANT_ID, entity, ts, records, status⟩ = (TENANT_ID, entity) := rfl
  rw [hkv] at h
  show lookupRow syncKey (upsertRow syncKey syncKey id syncMerge t
    ⟨TENANT_ID, entity, ts, records, status⟩) (TENANT_ID, entity)
    = some ⟨TENANT_ID, entity, ts, records, status⟩
  cases hlook : lookupRow syncKey t (TENANT_ID, entity) with
  | none =>
    rw [hlook] at h
    exact h
  | some r =>
    rw [hlook] at h
    have hkeq : syncKey r = syncKey ⟨TENANT_ID, entity, ts, records, status⟩ := by
      have := List.find?_some hlook
      simpa [syncKey] using this
    have h2 : lookupRow syncKey (upsertRow syncKey syncKey id syncMerge t
        ⟨TENANT_ID, entity, ts, records, status⟩) (TENANT_ID, entity)
        = some (syncMerge r ⟨TENANT_ID, entity, ts, records, status⟩) := h
    rw [h2, syncMerge_of_key_eq r _ hkeq]

theorem update_sync_state_lookup_other (t : List SyncRow) (entity : String)
    (ts records : Int) (status : String) {k : String × String}
    (hk : k ≠ (TENANT_ID, entity)) :
    lookupRow syncKey (update_sync_state t entity ts records status) k
      = lookupRow syncKey t k :=
  @lookupRow_upsertRow_other _ _ _ _ syncKey syncKey id syncMerge
    (fun _ _ => rfl) (fun _ => rfl) t ⟨TENANT_ID, entity, ts, records, status⟩ k hk

/-- C8: recording sync state is always an insert-or-update keyed by
`(tenant_id, entity)`: the row is appended on the first attempt for that
pair, overwritten in place on every later attempt (same key set, new
`last_sync_at` / `records_synced` / `status`), rows of other pairs are
untouched, nothing is ever deleted, and key uniqueness is preserved, so at
most one `sync_state` row per pair ever exists. -/
theorem sync_state_keyed_upsert :
    ∀ t entity ts records status,
      (hasKey syncKey t (TENANT_ID, entity) = false →
        update_sync_state t entity ts records status
          = t ++ [{ tenant_id := TENANT_ID, entity := entity, last_sync_at := ts,
                    records_synced := records, status := status }]) ∧
      (hasKey syncKey t (TENANT_ID, entity) = true →
        (update_sync_state t entity ts records status).map syncKey
          = t.map syncKey) ∧
      lookupRow syncKey (update_sync_state t entity ts records status)
        (TENANT_ID, entity)
        = some { tenant_id := TENANT_ID, entity := entity, last_sync_at := ts,
                 records_synced := records, status := status } ∧
      (∀ k, k ≠ (TENANT_ID, entity) →
        lookupRow syncKey (update_sync_state t entity ts records status) k
          = lookupRow syncKey t k) ∧
      ((t.map syncKey).Nodup →
        ((update_sync_state t entity ts records status).map syncKey).Nodup) := by
  intro t entity ts records status
  refine ⟨?_, ?_, ?_, ?_, ?_⟩
  · intro hneg
    exact upsertRow_of_not_hasKey hneg
  · intro hpos
    exact @keys_upsertRow_of_hasKey _ _ _ _ syncKey syncKey id syncMerge
      (fun _ _ => rfl) t ⟨TENANT_ID, entity, ts, records, status⟩ hpos
  · exact update_sync_state_lookup_self t entity ts records status
  · intro k hk
    exact update_sync_state_lookup_other t entity ts records status hk
  · intro hnd
    exact @nodup_keys_upsertRow _ _ _ _ syncKey syncKey id syncMerge
      (fun _ _ => rfl) (fun _ => rfl) t ⟨TENANT_ID, entity, ts, records, status⟩ hnd

theorem sync_state_keyed_upsert_witness :
    update_sync_state [] "contacts" 5 3 "success"
      = [{ tenant_id := TENANT_ID, entity := "contacts", last_sync_at := 5,
           records_synced := 3, status := "success" }] ∧
    lookupRow syncKey
      (update_sync_state
        [{ tenant_id := TENANT_ID, entity := "contacts", last_sync_at := 5,
           records_synced := 3, status := "success" }] "contacts" 9 0 "error: boom")
      (TENANT_ID, "contacts")
      = some { tenant_id := TENANT_ID, entity := "contacts", last_sync_at := 9,
               records_synced := 0, status := "error: boom" } :=
  ⟨by simpa using (sync_state_keyed_upsert [] "contacts" 5 3 "success").1 (by decide),
   (sync_state_keyed_upsert
     [{ tenant_id := TENANT_ID, entity := "contacts", last_sync_at := 5,
        records_synced := 3, status := "success" }] "contacts" 9 0 "error: boom").2.2.1⟩

/-! ## Claim C2: dedup ranking -/

theorem toquesBeats_false_iff (x r : ToquesFlat)
    (h : beatsR toquesRank x r = false) : x.loaded_at ≤ r.loaded_at := by
  simp [beatsR, toquesRank, lex3Lt] at h
  omega

theorem campBeats_false_iff (x r : CampaignFlat)
    (h : beatsR campRank x r = false) : x.loaded_at ≤ r.loaded_at := by
  simp [beatsR, campRank, lex3Lt] at h
  omega

/-- Snapshot loaded at t1 = 1: profileName "Gise", updatedAt day 10. -/
def giseSnap : ContactSnapshot :=
  { tenant_id := none, loaded_at := 1,
    source_data := some
      [{ contactId := some "573054821614", profileName := some "Gise",
         createdAt := some 0, updatedAt := some 10 }] }

/-- Snapshot loaded at t2 = 2 > t1: profileName "Gisela", updatedAt day 5. -/
def giselaSnap : ContactSnapshot :=
  { tenant_id := none, loaded_at := 2,
    source_data := some
      [{ contactId := some "573054821614", profileName := some "Gisela",
         createdAt := some 0, updatedAt := some 5 }] }

/-- Snapshot loaded at t2 = 2 > t1: profileName "Gisela", updatedAt day 10
(equal to the first snapshot's). -/
def giselaSnapSameDay : ContactSnapshot :=
  { tenant_id := none, loaded_at := 2,
    source_data := some
      [{ contactId := some "573054821614", profileName := some "Gisela",
         createdAt := some 0, updatedAt := some 10 }] }

/-- C2 counterexample: two contact snapshots for tenant visionamos, contact
573054821614, carrying profileName "Gise" then "Gisela", loaded at 1 and
2 > 1.  The claim says the normalized row reflects the most recently loaded
snapshot ("Gisela"); the code orders the dedup window by `last_contact DESC
NULLS LAST, loaded_at DESC`, so the earlier-loaded "Gise" row (updatedAt day
10 > 5) wins and `public.contacts` ends with contact_name "Gise". -/
theorem dedup_latest_loaded_counterexample :
    (transform_contacts [giseSnap, giselaSnap] []).1
      = [{ tenant_id := TENANT_ID, contact_id := "573054821614",
           contact_name := some "Gise", total_messages := 0,
           first_contact := some 0, last_contact := some 10,
           total_conversations := 0 }] ∧
    giseSnap.loaded_at < giselaSnap.loaded_at ∧
    (some "Gise" : Option String) ≠ some "Gisela" :=
  ⟨by decide, by decide, by decide⟩

/-- C2 amended: the transform keeps exactly one row per
`(tenant_id, natural_key)`; for toques_daily and campaigns the kept row is
ranked by snapshot `loaded_at` descending, while for contacts the ranking is
by `last_contact` (the updatedAt date) descending with NULLs last and ties
broken by `loaded_at` descending; in the Gise/Gisela scenario the name
"Gisela" wins only when the update timestamps do not favour "Gise" — e.g.
with equal updatedAt dates, `public.contacts` ends with exactly one row for
that key with contact_name "Gisela". -/
theorem dedup_ranking_amended :
    (∀ raws, ((CONTACTS_SQL raws).map contactKey).Nodup) ∧
    (∀ raws r, r ∈ CONTACTS_SQL raws → r ∈ contactsFlattened raws ∧
      ∀ x ∈ contactsFlattened raws, contactKey x = contactKey r →
        beatsR contactRank x r = false) ∧
    (∀ raws, ((TOQUES_DAILY_SQL raws).map toquesKey).Nodup) ∧
    (∀ raws r, r ∈ TOQUES_DAILY_SQL raws → r ∈ toquesFlattened raws ∧
      ∀ x ∈ toquesFlattened raws, toquesKey x = toquesKey r →
        x.loaded_at ≤ r.loaded_at) ∧
    (∀ raws, ((CAMPAIGNS_SQL raws).map campKey).Nodup) ∧
    (∀ raws r, r ∈ CAMPAIGNS_SQL raws → r ∈ campaignsFlattened raws ∧
      ∀ x ∈ campaignsFlattened raws, campKey x = campKey r →
        x.loaded_at ≤ r.loaded_at) ∧
    (transform_contacts [giseSnap, giselaSnapSameDay] []).1
      = [{ tenant_id := TENANT_ID, contact_id := "573054821614",
           contact_name := some "Gisela", total_messages := 0,
           first_contact := some 0, last_contact := some 10,
           total_conversations := 0 }] := by
  refine ⟨?_, ?_, ?_, ?_, ?_, ?_, by decide⟩
  · intro raws
    exact dedupByKey_nodup_keys _ _ _
  · intro raws r hr
    exact ⟨dedupByKey_subset hr, fun x hx hk => dedupByKey_top hr x hx hk⟩
  · intro raws
    exact dedupByKey_nodup_keys _ _ _
  · intro raws r hr
    exact ⟨dedupByKey_subset hr,
      fun x hx hk => toquesBeats_false_iff x r (dedupByKey_top hr x hx hk)⟩
  · intro raws
    exact dedupByKey_nodup_keys _ _ _
  · intro raws r hr
    exact ⟨dedupByKey_subset hr,
      fun x hx hk => campBeats_false_iff x r (dedupByKey_top hr x hx hk)⟩

def c2Flat : ContactFlat :=
  { tenant_id := TENANT_ID, contact_id := "573054821614",
    contact_name := some "Gise", first_contact := some 0,
    last_contact := some 10, loaded_at := 1 }

theorem dedup_ranking_amended_witness :
    c2Flat ∈ CONTACTS_SQL [giseSnap, giselaSnap] ∧
    (c2Flat ∈ contactsFlattened [giseSnap, giselaSnap] ∧
      ∀ x ∈ contactsFlattened [giseSnap, giselaSnap],
        contactKey x = contactKey c2Flat → beatsR contactRank x c2Flat = false) :=
  ⟨by decide, dedup_ranking_amended.2.1 [giseSnap, giselaSnap] c2Flat (by decide)⟩

/-! ## Main-loop lemmas (claims C1, C3, C10) -/

/-- Equality of the five normalized tables, ignoring `sync_state`. -/
def tablesEq (a b : PublicDB) : Prop :=
  a.contacts = b.contacts ∧ a.toques_daily = b.toques_daily ∧
  a.toques_heatmap = b.toques_heatmap ∧ a.campaigns = b.campaigns ∧
  a.daily_stats = b.daily_stats

theorem tablesEq_refl (a : PublicDB) : tablesEq a a := ⟨rfl, rfl, rfl, rfl, rfl⟩

/-- One loop iteration with the sync-state write dropped; a failing entity
leaves the database untouched (its transaction is rolled back). -/
def stepTables (raw : RawDB) (outcome : Entity → Option String) (db : PublicDB)
    (e : Entity) : PublicDB :=
  match outcome e with
  | none => (applyTransform raw e db).1
  | some _ => db

/-- The table contents a run produces: exactly the successful transforms
applied in order. -/
def mainTables (raw : RawDB) (outcome : Entity → Option String) (db : PublicDB) :
    PublicDB :=
  TRANSFORMS.foldl (stepTables raw outcome) db

theorem entityName_inj (e e' : Entity) (h : entityName e = entityName e') : e = e' := by
  cases e <;> cases e' <;> first | rfl | exact absurd h (by decide)

theorem mainStep_sync_state_error (raw : RawDB) (outcome : Entity → Option String)
    (ts : Int) (db : PublicDB) (e : Entity) (msg : String) (h : outcome e = some msg) :
    (mainStep raw outcome ts db e).sync_state
      = update_sync_state db.sync_state (entityName e) ts 0
          ("error: " ++ msg.take 200) := by
  cases e <;> simp [mainStep, h]

theorem mainStep_sync_state_ok (raw : RawDB) (outcome : Entity → Option String)
    (ts : Int) (db : PublicDB) (e : Entity) (h : outcome e = none) :
    (mainStep raw outcome ts db e).sync_state
      = update_sync_state db.sync_state (entityName e) ts
          ((applyTransform raw e db).2 : Int) "success" := by
  cases e <;> simp [mainStep, h, applyTransform]

theorem mainStep_sync_other (raw : RawDB) (outcome : Entity → Option String)
    (ts : Int) (db : PublicDB) (e' e : Entity) (hne : e' ≠ e) :
    lookupRow syncKey (mainStep raw outcome ts db e').sync_state
      (TENANT_ID, entityName e)
      = lookupRow syncKey db.sync_state (TENANT_ID, entityName e) := by
  have hk : (TENANT_ID, entityName e) ≠ (TENANT_ID, entityName e') := by
    intro hcon
    exact hne (entityName_inj e' e (congrArg Prod.snd hcon).symm)
  cases houtcome : outcome e' with
  | none =>
    rw [mainStep_sync_state_ok raw outcome ts db e' houtcome]
    exact update_sync_state_lookup_other _ _ _ _ _ hk
  | some msg =>
    rw [mainStep_sync_state_error raw outcome ts db e' msg houtcome]
    exact update_sync_state_lookup_other _ _ _ _ _ hk

theorem fold_sync_other (raw : RawDB) (outcome : Entity → Option String)
    (ts : Int) (e : Entity) :
    ∀ (es : List Entity) (db : PublicDB), (∀ x ∈ es, x ≠ e) →
      lookupRow syncKey ((es.foldl (mainStep raw outcome ts) db)).sync_state
        (TENANT_ID, entityName e)
      = lookupRow syncKey db.sync_state (TENANT_ID, entityName e) := by
  intro es
  induction es with
  | nil => intro db _; rfl
  | cons x es ih =>
    intro db hne
    have hstep : (x :: es).foldl (mainStep raw outcome ts) db
        = es.foldl (mainStep raw outcome ts) (mainStep raw outcome ts db x) := rfl
    rw [hstep, ih _ (fun y hy => hne y (List.mem_cons.mpr (Or.inr hy))),
      mainStep_sync_other raw outcome ts db x e (hne x (List.mem_cons_self x es))]

theorem main_sync_lookup_error (raw : RawDB) (outcome : Entity → Option String)
    (ts : Int) (db : PublicDB) (e : Entity) (msg : String) (h : outcome e = some msg) :
    lookupRow syncKey (main raw outcome ts db).sync_state (TENANT_ID, entityName e)
      = some ⟨TENANT_ID, entityName e, ts, 0, "error: " ++ msg.take 200⟩ := by
  cases e with
  | contacts =>
    have hm : main raw outcome ts db
        = [Entity.toques_daily, Entity.toques_heatmap, Entity.campaigns,
           Entity.daily_stats].foldl (mainStep raw outcome ts)
            (mainStep raw outcome ts db Entity.contacts) := rfl
    rw [hm, fold_sync_other raw outcome ts Entity.contacts _ _ (by decide),
      mainStep_sync_state_error raw outcome ts db Entity.contacts msg h,
      update_sync_state_lookup_self]
  | toques_daily =>
    have hm : main raw outcome ts db
        = [Entity.toques_heatmap, Entity.campaigns,
           Entity.daily_stats].foldl (mainStep raw outcome ts)
            (mainStep raw outcome ts (mainStep raw outcome ts db Entity.contacts)
              Entity.toques_daily) := rfl
    rw [hm, fold_sync_other raw outcome ts Entity.toques_daily _ _ (by decide),
      mainStep_sync_state_error raw outcome ts _ Entity.toques_daily msg h,
      update_sync_state_lookup_self]
  | toques_heatmap =>
    have hm : main raw outcome ts db
        = [Entity.campaigns, Entity.daily_stats].foldl (mainStep raw outcome ts)
            (mainStep raw outcome ts
              (mainStep raw outcome ts (mainStep raw outcome ts db Entity.contacts)
                Entity.toques_daily) Entity.toques_heatmap) := rfl
    rw [hm, fold_sync_other raw outcome ts Entity.toques_heatmap _ _ (by decide),
      mainStep_sync_state_error raw outcome ts _ Entity.toques_heatmap msg h,
      update_sync_state_lookup_self]
  | campaigns =>
    have hm : main raw outcome ts db
        = [Entity.daily_stats].foldl (mainStep raw outcome ts)
            (mainStep raw outcome ts
              (mainStep raw outcome ts
                (mainStep raw outcome ts (mainStep raw outcome ts db Entity.contacts)
                  Entity.toques_daily) Entity.toques_heatmap) Entity.campaigns) := rfl
    rw [hm, fold_sync_other raw outcome ts Entity.campaigns _ _ (by decide),
      mainStep_sync_state_error raw outcome ts _ Entity.campaigns msg h,
      update_sync_state_lookup_self]
  | daily_stats =>
    have hm : main raw outcome ts db
        = mainStep raw outcome ts
            (mainStep raw outcome ts
              (mainStep raw outcome ts
                (mainStep raw outcome ts (mainStep raw outcome ts db Entity.contacts)
                  Entity.toques_daily) Entity.toques_heatmap) Entity.campaigns)
            Entity.daily_stats := rfl
    rw [hm, mainStep_sync_state_error raw outcome ts _ Entity.daily_stats msg h,
      update_sync_state_lookup_self]

theorem main_sync_lookup_success (raw : RawDB) (outcome : Entity → Option String)
    (ts : Int) (db : PublicDB) (e : Entity) (h : outcome e = none) :
    ∃ n, lookupRow syncKey (main raw outcome ts db).sync_state
        (TENANT_ID, entityName e)
      = some ⟨TENANT_ID, entityName e, ts, n, "success"⟩ := by
  cases e with
  | contacts =>
    have hm : main raw outcome ts db
        = [Entity.toques_daily, Entity.toques_heatmap, Entity.campaigns,
           Entity.daily_stats].foldl (mainStep raw outcome ts)
            (mainStep raw outcome ts db Entity.contacts) := rfl
    rw [hm, fold_sync_other raw outcome ts Entity.contacts _ _ (by decide),
      mainStep_sync_state_ok raw outcome ts db Entity.contacts h,
      update_sync_state_lookup_self]
    exact ⟨_, rfl⟩
  | toques_daily =>
    have hm : main raw outcome ts db
        = [Entity.toques_heatmap, Entity.campaigns,
           Entity.daily_stats].foldl (mainStep raw outcome ts)
            (mainStep raw outcome ts (mainStep raw outcome ts db Entity.contacts)
              Entity.toques_daily) := rfl
    rw [hm, fold_sync_other raw outcome ts Entity.toques_daily _ _ (by decide),
      mainStep_sync_state_ok raw outcome ts _ Entity.toques_daily h,
      update_sync_state_lookup_self]
    exact ⟨_, rfl⟩
  | toques_heatmap =>
    have hm : main raw outcome ts db
        = [Entity.campaigns, Entity.daily_stats].foldl (mainStep raw outcome ts)
            (mainStep raw outcome ts
              (mainStep raw outcome ts (mainStep raw outcome ts db Entity.contacts)
                Entity.toques_daily) Entity.toques_heatmap) := rfl
    rw [hm, fold_sync_other raw outcome ts Entity.toques_heatmap _ _ (by decide),
      mainStep_sync_state_ok raw outcome ts _ Entity.toques_heatmap h,
      update_sync_state_lookup_self]
    exact ⟨_, rfl⟩
  | campaigns =>
    have hm : main raw outcome ts db
        = [Entity.daily_stats].foldl (mainStep raw outcome ts)
            (mainStep raw outcome ts
              (mainStep raw outcome ts
                (mainStep raw outcome ts (mainStep raw outcome ts db Entity.contacts)
                  Entity.toques_daily) Entity.toques_heatmap) Entity.campaigns) := rfl
    rw [hm, fold_sync_other raw outcome ts Entity.campaigns _ _ (by decide),
      mainStep_sync_state_ok raw outcome ts _ Entity.campaigns h,
      update_sync_state_lookup_self]
    exact ⟨_, rfl⟩
  | daily_stats =>
    have hm : main raw outcome ts db
        = mainStep raw outcome ts
            (mainStep raw outcome ts
              (mainStep raw outcome ts
                (mainStep raw outcome ts (mainStep raw outcome ts db Entity.contacts)
                  Entity.toques_daily) Entity.toques_heatmap) Entity.campaigns)
            Entity.daily_stats := rfl
    rw [hm, mainStep_sync_state_ok raw outcome ts _ Entity.daily_stats h,
      update_sync_state_lookup_self]
    exact ⟨_, rfl⟩

theorem step_tablesEq (raw : RawDB) (outcome : Entity → Option String) (ts : Int)
    {db1 db2 : PublicDB} (e : Entity) (h : tablesEq db1 db2) :
    tablesEq (mainStep raw outcome ts db1 e) (stepTables raw outcome db2 e) := by
  obtain ⟨h1, h2, h3, h4, h5⟩ := h
  cases houtcome : outcome e <;> cases e <;>
    simp [mainStep, stepTables, applyTransform, tablesEq, houtcome, h1, h2, h3, h4, h5]

theorem foldl_tablesEq (raw : RawDB) (outcome : Entity → Option String) (ts : Int) :
    ∀ (es : List Entity) {db1 db2 : PublicDB}, tablesEq db1 db2 →
      tablesEq (es.foldl (mainStep raw outcome ts) db1)
        (es.foldl (stepTables raw outcome) db2) := by
  intro es
  induction es with
  | nil => exact fun h => h
  | cons e es ih =>
    intro db1 db2 h
    exact ih (step_tablesEq raw outcome ts e h)

/-! ## Claim C3: failure isolation -/

/-- C3: in a run where entity `e`'s transform raises (outcome `some msg`),
the final database records a sync_state error row for `e` with a truncated
message and zero records; every entity whose transform does not raise ends
with a success sync_state row; and the normalized tables equal those of the
run in which the failing entities' transforms are skipped entirely — the
failing entity's writes are rolled back while all other entities still
execute. -/
theorem failure_isolation (raw : RawDB) (outcome : Entity → Option String)
    (ts : Int) (db : PublicDB) (e : Entity) (msg : String)
    (h : outcome e = some msg) :
    lookupRow syncKey (main raw outcome ts db).sync_state
      (TENANT_ID, entityName e)
      = some ⟨TENANT_ID, entityName e, ts, 0, "error: " ++ msg.take 200⟩ ∧
    (∀ e', outcome e' = none →
      ∃ n, lookupRow syncKey (main raw outcome ts db).sync_state
          (TENANT_ID, entityName e')
        = some ⟨TENANT_ID, entityName e', ts, n, "success"⟩) ∧
    tablesEq (main raw outcome ts db) (mainTables raw outcome db) :=
  ⟨main_sync_lookup_error raw outcome ts db e msg h,
   fun e' he' => main_sync_lookup_success raw outcome ts db e' he',
   foldl_tablesEq raw outcome ts TRANSFORMS (tablesEq_refl db)⟩

def emptyRawDB : RawDB := { raw_contacts_api := [], raw_push_stats := [], raw_campaigns_api := [] }

def emptyPublicDB : PublicDB :=
  { contacts := [], toques_daily := [], toques_heatmap := [], campaigns := [],
    daily_stats := [], sync_state := [] }

/-- A run in which only the campaigns transform raises. -/
def campaignsFailOutcome : Entity → Option String
  | Entity.campaigns => some "boom"
  | _ => none

theorem failure_isolation_witness :
    lookupRow syncKey (main emptyRawDB campaignsFailOutcome 7 emptyPublicDB).sync_state
      (TENANT_ID, entityName Entity.campaigns)
      = some ⟨TENANT_ID, entityName Entity.campaigns, 7, 0, "error: " ++ "boom".take 200⟩ ∧
    (∀ e', campaignsFailOutcome e' = none →
      ∃ n, lookupRow syncKey
          (main emptyRawDB campaignsFailOutcome 7 emptyPublicDB).sync_state
          (TENANT_ID, entityName e')
        = some ⟨TENANT_ID, entityName e', 7, n, "success"⟩) ∧
    tablesEq (main emptyRawDB campaignsFailOutcome 7 emptyPublicDB)
      (mainTables emptyRawDB campaignsFailOutcome emptyPublicDB) :=
  failure_isolation emptyRawDB campaignsFailOutcome 7 emptyPublicDB
    Entity.campaigns "boom" rfl

/-! ## Claim C10: error recording overwrites the success count -/

/-- C10: if entity `e` fails in a run, the sync_state row for
`(visionamos, e)` ends as `records_synced = 0` with status
`"error: " ++ msg truncated to 200 characters`, even when the table
previously held a success row with some nonzero count for that entity —
the previous count is overwritten, not preserved. -/
theorem error_overwrites_success_count (raw : RawDB)
    (outcome : Entity → Option String) (ts ts0 n : Int) (db : PublicDB)
    (e : Entity) (msg : String) (h : outcome e = some msg)
    (hprev : lookupRow syncKey db.sync_state (TENANT_ID, entityName e)
      = some ⟨TENANT_ID, entityName e, ts0, n, "success"⟩) :
    lookupRow syncKey (main raw outcome ts db).sync_state
      (TENANT_ID, entityName e)
      = some ⟨TENANT_ID, entityName e, ts, 0, "error: " ++ msg.take 200⟩ :=
  main_sync_lookup_error raw outcome ts db e msg h

def c10PrevDB : PublicDB :=
  { contacts := [], toques_daily := [], toques_heatmap := [], campaigns := [],
    daily_stats := [],
    sync_state := [⟨TENANT_ID, "campaigns", 3, 42, "success"⟩] }

theorem error_overwrites_success_count_witness :
    lookupRow syncKey c10PrevDB.sync_state (TENANT_ID, entityName Entity.campaigns)
      = some ⟨TENANT_ID, entityName Entity.campaigns, 3, 42, "success"⟩ ∧
    lookupRow syncKey
      (main emptyRawDB campaignsFailOutcome 9 c10PrevDB).sync_state
      (TENANT_ID, entityName Entity.campaigns)
      = some ⟨TENANT_ID, entityName Entity.campaigns, 9, 0,
              "error: " ++ "boom".take 200⟩ :=
  ⟨by decide,
   error_overwrites_success_count emptyRawDB campaignsFailOutcome 9 3 42 c10PrevDB
     Entity.campaigns "boom" rfl (by decide)⟩

/-! ## Claim C9: heatmap uses only the latest snapshot per tenant -/

theorem heatBeats_false_iff (x r : HeatSource)
    (h : beatsR heatRank x r = false) : x.loaded_at ≤ r.loaded_at := by
  simp [beatsR, heatRank, lex3Lt] at h
  omega

/-- C9: the heatmap transform selects exactly one `/pushHeatmap` snapshot
per tenant — the one with the greatest `loaded_at` — flattens weekday/hour
cells only from those snapshots, and the upsert leaves every
`(tenant, canal, dia_semana, hora)` cell that none of the produced rows
carries untouched (older snapshots contribute no rows and nothing is
deleted). -/
theorem heatmap_latest_snapshot_only (raws : List PushSnapshot) :
    ((heatmapLatest raws).map (fun s => s.tenant_id)).Nodup ∧
    (∀ l ∈ heatmapLatest raws, l ∈ heatmapSources raws ∧
      ∀ s ∈ heatmapSources raws, s.tenant_id = l.tenant_id →
        s.loaded_at ≤ l.loaded_at) ∧
    (∀ r ∈ HEATMAP_SQL raws, ∃ l ∈ heatmapLatest raws, r ∈ heatCells l) ∧
    (∀ (t : List HeatRow) (k : String × String × String × Int),
      (∀ r ∈ HEATMAP_SQL raws, heatKey r ≠ k) →
      lookupRow heatRowKey (transform_heatmap raws t).1 k
        = lookupRow heatRowKey t k) := by
  refine ⟨?_, ?_, ?_, ?_⟩
  · exact dedupByKey_nodup_keys _ _ _
  · intro l hl
    refine ⟨dedupByKey_subset hl, ?_⟩
    intro s hs hts
    exact heatBeats_false_iff s l (dedupByKey_top hl s hs hts)
  · intro r hr
    unfold HEATMAP_SQL at hr
    obtain ⟨cells, hcells, hrc⟩ := List.mem_flatten.mp hr
    obtain ⟨l, hlmem, hleq⟩ := List.mem_map.mp hcells
    exact ⟨l, hlmem, hleq ▸ hrc⟩
  · intro t k hne
    exact @lookupRow_upsertAll_other _ _ _ _ heatRowKey heatKey heatInsert heatMerge
      (fun _ _ => rfl) (fun _ => rfl) t (HEATMAP_SQL raws) k hne

def c9Old : PushSnapshot :=
  { tenant_id := none, application_id := none, endpoint := "/v1/push/pushHeatmap",
    loaded_at := 1,
    source_data := PushPayload.dataObject [("monday", some [(9, (1 : Rat))])] }

def c9New : PushSnapshot :=
  { tenant_id := none, application_id := none, endpoint := "/v1/push/pushHeatmap",
    loaded_at := 2,
    source_data := PushPayload.dataObject [("tuesday", some [(10, (2 : Rat))])] }

def c9Latest : HeatSource :=
  { tenant_id := TENANT_ID, loaded_at := 2,
    weekdayHour := [("tuesday", some [(10, (2 : Rat))])] }

theorem heatmap_latest_snapshot_only_witness :
    c9Latest ∈ heatmapLatest [c9Old, c9New] ∧
    (c9Latest ∈ heatmapSources [c9Old, c9New] ∧
      ∀ s ∈ heatmapSources [c9Old, c9New], s.tenant_id = c9Latest.tenant_id →
        s.loaded_at ≤ c9Latest.loaded_at) :=
  ⟨by decide,
   (heatmap_latest_snapshot_only [c9Old, c9New]).2.1 c9Latest (by decide)⟩

/-! ## Claim C1: transform idempotence -/

/-- JSON objects carry pairwise-distinct keys; a heatmap payload read from
the API therefore has distinct weekday keys and distinct hour keys.  This
well-formedness mirrors `jsonb_each` semantics. -/
def wfWeekdayVal : Option (List (Int × Rat)) → Prop
  | none => True
  | some hs => (hs.map Prod.fst).Nodup

instance instDecWfWeekdayVal : (o : Option (List (Int × Rat))) → Decidable (wfWeekdayVal o)
  | none => isTrue trivial
  | some _ => List.nodupDecidable _

def wfHeatSource (l : HeatSource) : Prop :=
  (l.weekdayHour.map Prod.fst).Nodup ∧ ∀ p ∈ l.weekdayHour, wfWeekdayVal p.2

instance instDecWfHeatSource (l : HeatSource) : Decidable (wfHeatSource l) := by
  unfold wfHeatSource
  infer_instance

theorem heatWeekdayBlock_none (l : HeatSource) (wd : String × Option (List (Int × Rat)))
    (h : wd.2 = none) : heatWeekdayBlock l wd = [] := by
  simp [heatWeekdayBlock, h]

theorem heatWeekdayBlock_some (l : HeatSource) (wd : String × Option (List (Int × Rat)))
    (hours : List (Int × Rat)) (h : wd.2 = some hours) :
    heatWeekdayBlock l wd = hours.map (fun h =>
      { tenant_id := l.tenant_id, canal := "push", dia_semana := wd.1, hora := h.1,
        ctr := round2 (h.2 * 100), dia_orden := diaOrden wd.1 }) := by
  simp [heatWeekdayBlock, h]

theorem mem_heatWeekdayBlock (l : HeatSource) (wd : String × Option (List (Int × Rat)))
    (r : HeatFlat) (h : r ∈ heatWeekdayBlock l wd) :
    r.tenant_id = l.tenant_id ∧ r.dia_semana = wd.1 := by
  cases hwd : wd.2 with
  | none =>
    rw [heatWeekdayBlock_none l wd hwd] at h
    cases h
  | some hours =>
    rw [heatWeekdayBlock_some l wd hours hwd] at h
    obtain ⟨x, _, rfl⟩ := List.mem_map.mp h
    exact ⟨rfl, rfl⟩

theorem heatWeekdayBlock_keys_nodup (l : HeatSource)
    (wd : String × Option (List (Int × Rat))) (hwf : wfWeekdayVal wd.2) :
    ((heatWeekdayBlock l wd).map heatKey).Nodup := by
  cases hwd : wd.2 with
  | none => simp [heatWeekdayBlock_none l wd hwd]
  | some hours =>
    rw [heatWeekdayBlock_some l wd hours hwd, List.map_map]
    have hcomp : (heatKey ∘ fun h : Int × Rat =>
        ({ tenant_id := l.tenant_id, canal := "push", dia_semana := wd.1, hora := h.1,
           ctr := round2 (h.2 * 100), dia_orden := diaOrden wd.1 } : HeatFlat))
        = (fun x : Int => (l.tenant_id, "push", wd.1, x)) ∘ Prod.fst := by
      funext h
      rfl
    rw [hcomp, ← List.map_map]
    have hnd : (hours.map Prod.fst).Nodup := by
      rw [hwd] at hwf
      exact hwf
    exact hnd.map (fun a b hab => by simpa using hab)

theorem mem_heatCells_tenant {l : HeatSource} {r : HeatFlat} (h : r ∈ heatCells l) :
    r.tenant_id = l.tenant_id := by
  unfold heatCells at h
  obtain ⟨block, hblock, hrb⟩ := List.mem_flatten.mp h
  obtain ⟨wd, hwd, rfl⟩ := List.mem_map.mp hblock
  exact (mem_heatWeekdayBlock l wd r hrb).1

theorem heatCells_keys_nodup (l : HeatSource) (hwf : wfHeatSource l) :
    ((heatCells l).map heatKey).Nodup := by
  unfold heatCells
  rw [List.map_flatten, List.map_map, List.nodup_flatten]
  constructor
  · intro cells hcells
    obtain ⟨wd, hwd, rfl⟩ := List.mem_map.mp hcells
    exact heatWeekdayBlock_keys_nodup l wd (hwf.2 wd hwd)
  · rw [List.pairwise_map]
    have hp : l.weekdayHour.Pairwise (fun p q => p.1 ≠ q.1) := by
      have hn := hwf.1
      rw [List.Nodup, List.pairwise_map] at hn
      exact hn
    refine hp.imp ?_
    intro p q hpq x hx hy
    obtain ⟨r1, hr1, rfl⟩ := List.mem_map.mp hx
    obtain ⟨r2, hr2, hkeq⟩ := List.mem_map.mp hy
    apply hpq
    have h1 := (mem_heatWeekdayBlock l p r1 hr1).2
    have h2 := (mem_heatWeekdayBlock l q r2 hr2).2
    rw [← h1, ← h2]
    have hc := congrArg (fun k : String × String × String × Int => k.2.2.1) hkeq
    simpa [heatKey] using hc.symm

theorem heatmap_sql_keys_nodup (raws : List PushSnapshot)
    (hwf : ∀ l ∈ heatmapSources raws, wfHeatSource l) :
    ((HEATMAP_SQL raws).map heatKey).Nodup := by
  unfold HEATMAP_SQL
  rw [List.map_flatten, List.map_map, List.nodup_flatten]
  constructor
  · intro cells hcells
    obtain ⟨l, hl, rfl⟩ := List.mem_map.mp hcells
    exact heatCells_keys_nodup l (hwf l (dedupByKey_subset hl))
  · rw [List.pairwise_map]
    have hp : (heatmapLatest raws).Pairwise (fun a b => a.tenant_id ≠ b.tenant_id) := by
      have hn := dedupByKey_nodup_keys (fun s : HeatSource => s.tenant_id)
        (beatsR heatRank) (heatmapSources raws)
      rw [List.Nodup, List.pairwise_map] at hn
      exact hn
    refine hp.imp ?_
    intro a b hab x hx hy
    obtain ⟨r1, hr1, rfl⟩ := List.mem_map.mp hx
    obtain ⟨r2, hr2, hkeq⟩ := List.mem_map.mp hy
    apply hab
    rw [← mem_heatCells_tenant hr1, ← mem_heatCells_tenant hr2]
    have hc := congrArg (fun k : String × String × String × Int => k.1) hkeq
    simpa [heatKey] using hc.symm

theorem daily_stats_keys_nodup (toques : List ToquesRow) :
    ((DAILY_STATS_SQL toques).map dailyKey).Nodup := by
  simp only [DAILY_STATS_SQL]
  rw [List.map_map]
  have heq : ∀ k ∈ ((toques.filter (fun r => r.tenant_id = TENANT_ID)).map
      (fun r => (r.tenant_id, r.date))).dedup,
      (dailyKey ∘ fun k : String × Int =>
        ({ tenant_id := k.1, date := k.2,
           total_messages := sumEnviados ((toques.filter
             (fun r => r.tenant_id = TENANT_ID)).filter
               (fun r => (r.tenant_id, r.date) = k)),
           unique_contacts := 0, conversations := 0,
           fallback_count := 0 } : DailyStatRow)) k = k := by
    intro k _
    rfl
  rw [List.map_congr_left heq]
  simpa using List.nodup_dedup _

theorem main_ok_contacts (raw : RawDB) (ts : Int) (db : PublicDB) :
    (main raw (fun _ => none) ts db).contacts
      = upsertAll contactRowKey contactKey contactsInsert contactsMerge db.contacts
          (CONTACTS_SQL raw.raw_contacts_api) := rfl

theorem main_ok_toques (raw : RawDB) (ts : Int) (db : PublicDB) :
    (main raw (fun _ => none) ts db).toques_daily
      = upsertAll toquesRowKey toquesKey toquesInsert toquesMerge db.toques_daily
          (TOQUES_DAILY_SQL raw.raw_push_stats) := rfl

theorem main_ok_heatmap (raw : RawDB) (ts : Int) (db : PublicDB) :
    (main raw (fun _ => none) ts db).toques_heatmap
      = upsertAll heatRowKey heatKey heatInsert heatMerge db.toques_heatmap
          (HEATMAP_SQL raw.raw_push_stats) := rfl

theorem main_ok_campaigns (raw : RawDB) (ts : Int) (db : PublicDB) :
    (main raw (fun _ => none) ts db).campaigns
      = upsertAll campRowKey campKey campInsert campMerge db.campaigns
          (CAMPAIGNS_SQL raw.raw_campaigns_api) := rfl

theorem main_ok_daily (raw : RawDB) (ts : Int) (db : PublicDB) :
    (main raw (fun _ => none) ts db).daily_stats
      = upsertAll dailyKey dailyKey id dailyMerge db.daily_stats
          (DAILY_STATS_SQL (upsertAll toquesRowKey toquesKey toquesInsert toquesMerge
            db.toques_daily (TOQUES_DAILY_SQL raw.raw_push_stats))) := rfl

/-- C1: with the raw store unchanged, running every entity transform a
second time leaves all five normalized tables with exactly the rows of the
first run (hence identical row counts and content).  The well-formedness
hypothesis says heatmap payloads carry distinct JSON object keys, as
`jsonb_each` guarantees. -/
theorem transform_idempotent (raw : RawDB) (ts1 ts2 : Int) (db : PublicDB)
    (hwf : ∀ l ∈ heatmapSources raw.raw_push_stats, wfHeatSource l) :
    tablesEq (main raw (fun _ => none) ts2 (main raw (fun _ => none) ts1 db))
      (main raw (fun _ => none) ts1 db) := by
  refine ⟨?_, ?_, ?_, ?_, ?_⟩
  · rw [main_ok_contacts raw ts2 (main raw (fun _ => none) ts1 db),
      main_ok_contacts raw ts1 db]
    exact @upsertAll_idem _ _ _ _ contactRowKey contactKey contactsInsert
      contactsMerge (fun _ _ => rfl) (fun _ => rfl)
      (CONTACTS_SQL raw.raw_contacts_api) (dedupByKey_nodup_keys _ _ _)
      contactsMerge_absorb contactsMerge_insert db.contacts
  · rw [main_ok_toques raw ts2 (main raw (fun _ => none) ts1 db),
      main_ok_toques raw ts1 db]
    exact @upsertAll_idem _ _ _ _ toquesRowKey toquesKey toquesInsert
      toquesMerge (fun _ _ => rfl) (fun _ => rfl)
      (TOQUES_DAILY_SQL raw.raw_push_stats) (dedupByKey_nodup_keys _ _ _)
      toquesMerge_absorb toquesMerge_insert db.toques_daily
  · rw [main_ok_heatmap raw ts2 (main raw (fun _ => none) ts1 db),
      main_ok_heatmap raw ts1 db]
    exact @upsertAll_idem _ _ _ _ heatRowKey heatKey heatInsert
      heatMerge (fun _ _ => rfl) (fun _ => rfl)
      (HEATMAP_SQL raw.raw_push_stats)
      (heatmap_sql_keys_nodup raw.raw_push_stats hwf)
      heatMerge_absorb heatMerge_insert db.toques_heatmap
  · rw [main_ok_campaigns raw ts2 (main raw (fun _ => none) ts1 db),
      main_ok_campaigns raw ts1 db]
    exact @upsertAll_idem _ _ _ _ campRowKey campKey campInsert
      campMerge (fun _ _ => rfl) (fun _ => rfl)
      (CAMPAIGNS_SQL raw.raw_campaigns_api) (dedupByKey_nodup_keys _ _ _)
      campMerge_absorb campMerge_insert db.campaigns
  · rw [main_ok_daily raw ts2 (main raw (fun _ => none) ts1 db),
      main_ok_daily raw ts1 db, main_ok_toques raw ts1 db]
    rw [@upsertAll_idem _ _ _ _ toquesRowKey toquesKey toquesInsert
      toquesMerge (fun _ _ => rfl) (fun _ => rfl)
      (TOQUES_DAILY_SQL raw.raw_push_stats) (dedupByKey_nodup_keys _ _ _)
      toquesMerge_absorb toquesMerge_insert db.toques_daily]
    exact @upsertAll_idem _ _ _ _ dailyKey dailyKey id
      dailyMerge (fun _ _ => rfl) (fun _ => rfl)
      (DAILY_STATS_SQL (upsertAll toquesRowKey toquesKey toquesInsert toquesMerge
        db.toques_daily (TOQUES_DAILY_SQL raw.raw_push_stats)))
      (daily_stats_keys_nodup _) dailyMerge_absorb dailyMerge_insert db.daily_stats

def c1Raw : RawDB :=
  { raw_contacts_api := [giseSnap, giselaSnap],
    raw_push_stats := [c4Snap, c9Old, c9New],
    raw_campaigns_api := [] }

theorem transform_idempotent_witness :
    (∀ l ∈ heatmapSources c1Raw.raw_push_stats, wfHeatSource l) ∧
    tablesEq (main c1Raw (fun _ => none) 2 (main c1Raw (fun _ => none) 1 emptyPublicDB))
      (main c1Raw (fun _ => none) 1 emptyPublicDB) :=
  ⟨by decide, transform_idempotent c1Raw 1 2 emptyPublicDB (by decide)⟩
